import Mathlib

/-!
Verification of the response-normalization core of a conversational
analytics client (modules `chat_handler.py` and `visualization.py`).

Python values that flow through the core (outputs of
`MessageToDict` / `json.loads`) are modelled by the inductive type `JVal`
(strings, numbers as rationals, booleans, null, arrays, objects as
association lists in insertion order).  Python `None` is `JVal.jnull`.
Code that can raise a Python exception is modelled in `Except Unit`;
`Except.error ()` stands for "an exception was raised".
-/

inductive JVal : Type where
  | jstr (s : String)
  | jnum (q : ℚ)
  | jbool (b : Bool)
  | jnull
  | jarr (xs : List JVal)
  | jobj (fs : List (String × JVal))

/-- A Python `dict` produced by JSON decoding: ordered association list. -/
abbrev JObj := List (String × JVal)

/-- First-match association-list lookup (Python dict key access). -/
def lookupF : JObj → String → Option JVal
  | [], _ => none
  | (k, v) :: rest, key => if k == key then some v else lookupF rest key

/-- `d.get(key, default)` on an object. -/
def getDF (fs : JObj) (key : String) (d : JVal) : JVal :=
  match lookupF fs key with
  | some v => v
  | none => d

/-- `key in d` on an object. -/
def hasK (fs : JObj) (key : String) : Bool :=
  (lookupF fs key).isSome

/-- `d[key] = v`: replace the first binding of `key`, or append a new one. -/
def objSet : JObj → String → JVal → JObj
  | [], key, v => [(key, v)]
  | (k, w) :: rest, key, v =>
      if k == key then (k, v) :: rest else (k, w) :: objSet rest key v

/-- `del d[key]`: remove every binding of `key` (dicts hold at most one). -/
def objDel : JObj → String → JObj
  | [], _ => []
  | (k, w) :: rest, key =>
      if k == key then objDel rest key else (k, w) :: objDel rest key

/-- Python truthiness of a JSON-shaped value. -/
def jTruthy : JVal → Bool
  | .jstr s => s ≠ ""
  | .jnum q => q ≠ 0
  | .jbool b => b
  | .jnull => false
  | .jarr xs => !xs.isEmpty
  | .jobj fs => !fs.isEmpty

/-- `v.get(key, default)`: attribute access that raises on non-dicts. -/
def pyGetAttrD (v : JVal) (key : String) (d : JVal) : Except Unit JVal :=
  match v with
  | .jobj fs => .ok (getDF fs key d)
  | _ => .error ()

/-- `isinstance(v, (int, float))` as value extraction: Python `bool` is an
`int`, so `True`/`False` count as `1`/`0`. -/
def numLike : JVal → Option ℚ
  | .jnum q => some q
  | .jbool b => some (if b then 1 else 0)
  | _ => none

/-- Python iteration `for x in v`: lists yield elements, strings yield
one-character strings, dicts yield their keys; other values raise. -/
def pyIterate (v : JVal) : Except Unit (List JVal) :=
  match v with
  | .jarr xs => .ok xs
  | .jstr s => .ok (s.toList.map (fun c => JVal.jstr (String.singleton c)))
  | .jobj fs => .ok (fs.map (fun p => JVal.jstr p.1))
  | _ => .error ()

/-- Does `hay` start with `needle`? -/
def leadsWith : List Char → List Char → Bool
  | [], _ => true
  | _ :: _, [] => false
  | n :: ns, h :: hs => n == h && leadsWith ns hs

/-- Contiguous-substring test on character lists. -/
def subOf (needle : List Char) : List Char → Bool
  | [] => needle.isEmpty
  | h :: hs => leadsWith needle (h :: hs) || subOf needle hs

/-- `key in v` for arbitrary `v`: key membership on dicts, substring test
on strings, element equality on lists; other values raise `TypeError`. -/
def pyContains (v : JVal) (key : String) : Except Unit Bool :=
  match v with
  | .jobj fs => .ok (hasK fs key)
  | .jstr s => .ok (subOf key.toList s.toList)
  | .jarr xs =>
      .ok (xs.any (fun x => match x with | .jstr t => t == key | _ => false))
  | _ => .error ()

/-- `v[key]` with a string key: succeeds only on dicts that hold the key. -/
def pySubscript (v : JVal) (key : String) : Except Unit JVal :=
  match v with
  | .jobj fs =>
      match lookupF fs key with
      | some w => .ok w
      | none => .error ()
  | _ => .error ()

/-- `len(v)` for containers; raises on numbers, booleans and null. -/
def pyLen (v : JVal) : Except Unit Nat :=
  match v with
  | .jobj fs => .ok fs.length
  | .jarr xs => .ok xs.length
  | .jstr s => .ok s.length
  | _ => .error ()

/-- `next(iter(v.values()), None)`: first value of a dict; raises on
values that have no `.values()` attribute. -/
def pyFirstValue (v : JVal) : Except Unit JVal :=
  match v with
  | .jobj [] => .ok .jnull
  | .jobj ((_, w) :: _) => .ok w
  | _ => .error ()

/-- `d.get(key, default)` where the key is itself a dynamic value: JSON
object keys are strings, so hashable non-string keys miss and return the
default, while unhashable keys (lists, dicts) raise `TypeError`. -/
def pyDictGetDyn (v : JVal) (key : JVal) (d : JVal) : Except Unit JVal :=
  match v with
  | .jobj fs =>
      match key with
      | .jstr s => .ok (getDF fs s d)
      | .jnum _ => .ok d
      | .jbool _ => .ok d
      | .jnull => .ok d
      | _ => .error ()
  | _ => .error ()

/-- `ChatHandler._extract_proto_value`: unwrap one protobuf `Value`
wrapper dict, preferring `stringValue`, `numberValue`, `boolValue`,
`integerValue` in that order, then `nullValue`, then the first value
under any other key.  Python `None` results are `jnull`. -/
def extractProtoValue (w : JVal) : Except Unit JVal :=
  if !jTruthy w then .ok .jnull
  else
    match pyContains w "stringValue" with
    | .error e => .error e
    | .ok true => pySubscript w "stringValue"
    | .ok false =>
    match pyContains w "numberValue" with
    | .error e => .error e
    | .ok true => pySubscript w "numberValue"
    | .ok false =>
    match pyContains w "boolValue" with
    | .error e => .error e
    | .ok true => pySubscript w "boolValue"
    | .ok false =>
    match pyContains w "integerValue" with
    | .error e => .error e
    | .ok true => pySubscript w "integerValue"
    | .ok false =>
    match pyContains w "nullValue" with
    | .error e => .error e
    | .ok true => .ok .jnull
    | .ok false =>
    match pyLen w with
    | .error e => .error e
    | .ok 0 => .ok .jnull
    | .ok (_ + 1) => pyFirstValue w

/-! ## Tabular result decoder (`ChatHandler._parse_data_result`) -/

/-- The decoder's output shape: `{"columns": [...], "rows": [...]}`. -/
structure TableResult where
  columns : List JVal
  rows : List (List JVal)

/-- `[f.get("name", f"col_{i}") for i, f in enumerate(fields)]`. -/
def colNames (i : Nat) : List JVal → Except Unit (List JVal)
  | [] => .ok []
  | f :: rest =>
      match pyGetAttrD f "name" (.jstr ("col_" ++ toString i)) with
      | .error e => .error e
      | .ok n =>
          match colNames (i + 1) rest with
          | .error e => .error e
          | .ok ns => .ok (n :: ns)

/-- Column extraction from `dr_dict.get("schema", {}).get("fields", [])`. -/
def schemaColumns (dr : JObj) : Except Unit (List JVal) :=
  match pyGetAttrD (getDF dr "schema" (.jobj [])) "fields" (.jarr []) with
  | .error e => .error e
  | .ok fields =>
      if !jTruthy fields then .ok []
      else
        match pyIterate fields with
        | .error e => .error e
        | .ok fl => colNames 0 fl

/-- `[extract(row["fields"].get(c, {})) for c in columns]`. -/
def variantCells (rowFields : JVal) : List JVal → Except Unit (List JVal)
  | [] => .ok []
  | c :: cs =>
      match pyDictGetDyn rowFields c (.jobj []) with
      | .error e => .error e
      | .ok w =>
          match extractProtoValue w with
          | .error e => .error e
          | .ok v =>
              match variantCells rowFields cs with
              | .error e => .error e
              | .ok vs => .ok (v :: vs)

/-- `[row.get(c) for c in columns]` for a plain (non-variant) row dict. -/
def directCells (fs : JObj) : List JVal → Except Unit (List JVal)
  | [] => .ok []
  | c :: cs =>
      match pyDictGetDyn (.jobj fs) c .jnull with
      | .error e => .error e
      | .ok v =>
          match directCells fs cs with
          | .error e => .error e
          | .ok vs => .ok (v :: vs)

/-- One loop iteration of the primary (`"data"`) row extraction: the state
is the current `(columns, rows)` pair. -/
def primaryRowStep (st : List JVal × List (List JVal)) (row : JVal) :
    Except Unit (List JVal × List (List JVal)) :=
  match row with
  | .jobj fs =>
      match lookupF fs "fields" with
      | some fv =>
          match variantCells fv st.1 with
          | .error e => .error e
          | .ok vals => .ok (st.1, st.2 ++ [vals])
      | none =>
          let cols :=
            if st.1.isEmpty then fs.map (fun p => JVal.jstr p.1) else st.1
          match directCells fs cols with
          | .error e => .error e
          | .ok vals => .ok (cols, st.2 ++ [vals])
  | .jarr xs => .ok (st.1, st.2 ++ [xs])
  | _ => .ok st

/-- One loop iteration of the fallback (`"formattedData"`) extraction: the
fallback loop has no branch for rows that are plain lists. -/
def fallbackRowStep (st : List JVal × List (List JVal)) (row : JVal) :
    Except Unit (List JVal × List (List JVal)) :=
  match row with
  | .jobj fs =>
      match lookupF fs "fields" with
      | some fv =>
          match variantCells fv st.1 with
          | .error e => .error e
          | .ok vals => .ok (st.1, st.2 ++ [vals])
      | none =>
          let cols :=
            if st.1.isEmpty then fs.map (fun p => JVal.jstr p.1) else st.1
          match directCells fs cols with
          | .error e => .error e
          | .ok vals => .ok (cols, st.2 ++ [vals])
  | _ => .ok st

/-- Run a row-extraction step over a row list, threading `(columns, rows)`. -/
def runRows (step : List JVal × List (List JVal) → JVal →
      Except Unit (List JVal × List (List JVal)))
    (st : List JVal × List (List JVal)) :
    List JVal → Except Unit (List JVal × List (List JVal))
  | [] => .ok st
  | r :: rs =>
      match step st r with
      | .error e => .error e
      | .ok st' => runRows step st' rs

/-- The primary extraction: runs only when the `"data"` field is a truthy
list (`if data_rows and isinstance(data_rows, list)`). -/
def extractPrimary (cols : List JVal) (dataRows : JVal) :
    Except Unit (List JVal × List (List JVal)) :=
  if jTruthy dataRows then
    match dataRows with
    | .jarr rs => runRows primaryRowStep (cols, []) rs
    | _ => .ok (cols, [])
  else .ok (cols, [])

/-- The fallback extraction over the `"formattedData"` field. -/
def extractFallback (cols : List JVal) (fdRows : JVal) :
    Except Unit (List JVal × List (List JVal)) :=
  if jTruthy fdRows then
    match fdRows with
    | .jarr rs => runRows fallbackRowStep (cols, []) rs
    | _ => .ok (cols, [])
  else .ok (cols, [])

/-- `ChatHandler._parse_data_result`: decode a deep-converted `DataResult`
dict into a table, falling back to `"formattedData"` when the primary
`"data"` extraction yielded zero rows; any internal exception yields
`None`, as does an empty columns-and-rows outcome. -/
def parseDataResult (dr : JVal) : Option TableResult :=
  match dr with
  | .jobj fs =>
      match schemaColumns fs with
      | .error _ => none
      | .ok cols0 =>
          match extractPrimary cols0 (getDF fs "data" (.jarr [])) with
          | .error _ => none
          | .ok (cols1, rows1) =>
              match (if rows1.isEmpty then
                  extractFallback cols1 (getDF fs "formattedData" (.jarr []))
                else .ok (cols1, rows1)) with
              | .error _ => none
              | .ok (cols2, rows2) =>
                  if !cols2.isEmpty || !rows2.isEmpty then
                    some ⟨cols2, rows2⟩
                  else none
  | _ => none

/-! ## Chart-spec normalizer (`visualization._clean_vega_spec`) -/

def vegaLiteV5Schema : String := "https://vega.github.io/schema/vega-lite/v5.json"

/-- Does a transform step (a dict) contain a `window` or `sort` key? -/
def isWindowStep (t : JVal) : Bool :=
  match t with
  | .jobj fs => fs.any (fun p => p.1 == "window" || p.1 == "sort")
  | _ => false

/-- Rule 1 of `_clean_vega_spec`: drop the whole `transform` list when any
step holds a `window` or `sort` key. -/
def transformStep (spec : JObj) : Except Unit JObj :=
  match lookupF spec "transform" with
  | none => .ok spec
  | some tv =>
      match pyIterate tv with
      | .error e => .error e
      | .ok ts =>
          if ts.any isWindowStep then .ok (objDel spec "transform")
          else .ok spec

/-- `axis["sort"] == {} or axis["sort"] is None`. -/
def isEmptySortVal (v : JVal) : Bool :=
  match v with
  | .jobj [] => true
  | .jnull => true
  | _ => false

/-- Delete an axis's empty `sort` sub-field inside the encoding. -/
def cleanAxis (enc : JObj) (k : String) : JObj :=
  match lookupF enc k with
  | some (.jobj afs) =>
      match lookupF afs "sort" with
      | some sv =>
          if isEmptySortVal sv then objSet enc k (.jobj (objDel afs "sort"))
          else enc
      | none => enc
  | _ => enc

/-- Rule 2 of `_clean_vega_spec`: clean empty `sort` objects on the
`x`, `y`, `color`, `theta` encoding channels. -/
def sortStep (spec : JObj) : Except Unit JObj :=
  match lookupF spec "encoding" with
  | none => .ok spec
  | some (.jobj enc) =>
      .ok (objSet spec "encoding"
        (.jobj (["x", "y", "color", "theta"].foldl cleanAxis enc)))
  | some _ => .error ()

/-- The field bound to channel `k` when its declared type is `temporal`
and the bound field name is truthy (`_fix_temporal_data`'s field scan). -/
def temporalFieldAt (encoding : JVal) (k : String) : Except Unit (List JVal) :=
  match pyGetAttrD encoding k (.jobj []) with
  | .error e => .error e
  | .ok (.jobj afs) =>
      if (match lookupF afs "type" with
          | some (.jstr t) => t == "temporal"
          | _ => false) then
        (if jTruthy (getDF afs "field" .jnull) then
          .ok [getDF afs "field" .jnull]
         else .ok [])
      else .ok []
  | .ok _ => .ok []

/-- Temporal fields of the `x`, `y`, `color` channels, in channel order. -/
def temporalFieldsM (encoding : JVal) : Except Unit (List JVal) :=
  match temporalFieldAt encoding "x" with
  | .error e => .error e
  | .ok l1 =>
      match temporalFieldAt encoding "y" with
      | .error e => .error e
      | .ok l2 =>
          match temporalFieldAt encoding "color" with
          | .error e => .error e
          | .ok l3 => .ok (l1 ++ l2 ++ l3)

/-- `values[:5]`: slicing a list or a string; other values raise. -/
def pySlice5 (v : JVal) : Except Unit (List JVal) :=
  match v with
  | .jarr xs => .ok (xs.take 5)
  | .jstr s => .ok ((s.toList.take 5).map (fun c => JVal.jstr (String.singleton c)))
  | _ => .error ()

/-- `row.get(field)` restricted to the numeric check of the sampler:
`isinstance(row, dict) and isinstance(row.get(field), (int, float))`.
Unhashable field names raise on dict rows. -/
def sampleCell (field : JVal) (row : JVal) : Except Unit (Option ℚ) :=
  match row with
  | .jobj fs =>
      match field with
      | .jstr s => .ok ((lookupF fs s).bind numLike)
      | .jnum _ => .ok none
      | .jbool _ => .ok none
      | .jnull => .ok none
      | _ => .error ()
  | _ => .ok none

/-- The sampled numeric values of `field` over a row list, in order. -/
def sampleRows (field : JVal) : List JVal → Except Unit (List ℚ)
  | [] => .ok []
  | r :: rs =>
      match sampleCell field r with
      | .error e => .error e
      | .ok c =>
          match sampleRows field rs with
          | .error e => .error e
          | .ok qs => .ok (match c with | some q => q :: qs | none => qs)

/-- `1e8 < v < 3e9`: the epoch-seconds trigger range (strict bounds). -/
def inSecRange (q : ℚ) : Bool :=
  decide ((100000000 : ℚ) < q) && decide (q < 3000000000)

/-- The per-field trigger decision: sample the first five rows; fix iff the
sample is non-empty and every sampled value is strictly inside the range. -/
def shouldFixD (field : JVal) (values : JVal) : Except Unit Bool :=
  match pySlice5 values with
  | .error e => .error e
  | .ok rows5 =>
      match sampleRows field rows5 with
      | .error e => .error e
      | .ok qs => .ok (!qs.isEmpty && qs.all inSecRange)

/-- `row[field] = row[field] * 1000` on rows whose `field` cell is
numeric; other rows pass through. -/
def multRow (field : JVal) (row : JVal) : Except Unit JVal :=
  match row with
  | .jobj fs =>
      match field with
      | .jstr s =>
          match (lookupF fs s).bind numLike with
          | some q => .ok (.jobj (objSet fs s (.jnum (q * 1000))))
          | none => .ok row
      | .jnum _ => .ok row
      | .jbool _ => .ok row
      | .jnull => .ok row
      | _ => .error ()
  | _ => .ok row

def multRows (field : JVal) : List JVal → Except Unit (List JVal)
  | [] => .ok []
  | r :: rs =>
      match multRow field r with
      | .error e => .error e
      | .ok r' =>
          match multRows field rs with
          | .error e => .error e
          | .ok rs' => .ok (r' :: rs')

/-- One field of `_fix_temporal_data`'s loop: decide on the first five
rows, then multiply every numeric cell of the field by 1000. -/
def fixFieldM (field : JVal) (values : JVal) : Except Unit JVal :=
  match shouldFixD field values with
  | .error e => .error e
  | .ok false => .ok values
  | .ok true =>
      match values with
      | .jarr xs =>
          match multRows field xs with
          | .error e => .error e
          | .ok xs' => .ok (.jarr xs')
      | _ => .ok values

def fixFieldsFold : List JVal → JVal → Except Unit JVal
  | [], values => .ok values
  | f :: fs, values =>
      match fixFieldM f values with
      | .error e => .error e
      | .ok values' => fixFieldsFold fs values'

/-- `visualization._fix_temporal_data`: repair epoch-second timestamps of
temporal encoding fields inside the literal data values. -/
def fixTemporalData (spec : JObj) : Except Unit JObj :=
  match pyGetAttrD (getDF spec "data" (.jobj [])) "values" (.jarr []) with
  | .error e => .error e
  | .ok values =>
      if !jTruthy values then .ok spec
      else
        match temporalFieldsM (getDF spec "encoding" (.jobj [])) with
        | .error e => .error e
        | .ok tfs =>
            if tfs.isEmpty then .ok spec
            else
              match fixFieldsFold tfs values with
              | .error e => .error e
              | .ok values' =>
                  .ok (objSet spec "data"
                    (match getDF spec "data" (.jobj []) with
                     | .jobj dfs => .jobj (objSet dfs "values" values')
                     | d => d))

/-- Rule 4 of `_clean_vega_spec`: overwrite the `$schema` marker with the
v5 grammar URL, only when the key is present. -/
def schemaStep (spec : JObj) : JObj :=
  if hasK spec "$schema" then objSet spec "$schema" (.jstr vegaLiteV5Schema)
  else spec

/-- `visualization._clean_vega_spec`: the four normalization passes in
source order (the deep copy at entry is the identity on pure values). -/
def cleanVegaSpec (spec : JObj) : Except Unit JObj :=
  match transformStep spec with
  | .error e => .error e
  | .ok s1 =>
      match sortStep s1 with
      | .error e => .error e
      | .ok s2 =>
          match fixTemporalData s2 with
          | .error e => .error e
          | .ok s3 => .ok (schemaStep s3)

/-! ## Pure counterparts of the temporal-repair pass (string fields on
list-shaped values never raise, so the monadic functions restrict to pure
ones; the lemmas below establish the correspondence). -/

/-- The numeric cell of string field `f` in a row. -/
def cellQ (f : String) (row : JVal) : Option ℚ :=
  match row with
  | .jobj fs => (lookupF fs f).bind numLike
  | _ => none

/-- The numeric cells of field `f` over all rows, in order. -/
def rowCells (f : String) (xs : List JVal) : List (Option ℚ) :=
  xs.map (cellQ f)

/-- The sampled values of `f` over the first five rows. -/
def pureSample (f : String) (xs : List JVal) : List ℚ :=
  (xs.take 5).filterMap (cellQ f)

/-- The pure trigger decision for string field `f`. -/
def decideP (f : String) (xs : List JVal) : Bool :=
  !(pureSample f xs).isEmpty && (pureSample f xs).all inSecRange

/-- The pure per-row multiplication for string field `f`. -/
def multRowP (f : String) (row : JVal) : JVal :=
  match row with
  | .jobj fs =>
      match (lookupF fs f).bind numLike with
      | some q => .jobj (objSet fs f (.jnum (q * 1000)))
      | none => row
  | _ => row

/-- The pure per-field pass for string field `f` on a row list. -/
def fixFieldP (f : String) (xs : List JVal) : List JVal :=
  if decideP f xs then xs.map (multRowP f) else xs

/-- The data values of a spec (the object under `data` / `values`). -/
def dataValues (s : JObj) : Option JVal :=
  match getDF s "data" (.jobj []) with
  | .jobj dfs => lookupF dfs "values"
  | _ => none

/-! ## Embedded-spec extractor (`ChatHandler._extract_chart_from_text`).

`json.loads` is modelled by a fuelled recursive-descent JSON parser
(objects, arrays, strings with escapes, numbers, booleans, null; the
non-strict `NaN`/`Infinity` extensions are not modelled).  The two regex
scans of the source are modelled operationally with the same matching
semantics (lazy group, optional tags, non-overlapping left-to-right
matches). -/

/-- Python regex `\s` / `str.strip` whitespace (ASCII subset). -/
def isPySpace (c : Char) : Bool :=
  c == ' ' || c == '\t' || c == '\n' || c == '\r' || c == '\x0b' || c == '\x0c'

def stripL (cs : List Char) : List Char :=
  ((cs.dropWhile isPySpace).reverse.dropWhile isPySpace).reverse

def rstripL (cs : List Char) : List Char :=
  (cs.reverse.dropWhile isPySpace).reverse

/-- JSON whitespace. -/
def isJsonWs (c : Char) : Bool :=
  c == ' ' || c == '\t' || c == '\n' || c == '\r'

def skipWsJ (cs : List Char) : List Char := cs.dropWhile isJsonWs

def hexVal (c : Char) : Option Nat :=
  if c.isDigit then some (c.toNat - 48)
  else if 'a' ≤ c ∧ c ≤ 'f' then some (c.toNat - 87)
  else if 'A' ≤ c ∧ c ≤ 'F' then some (c.toNat - 55)
  else none

def digitsToNat (ds : List Char) : Nat :=
  ds.foldl (fun n c => n * 10 + (c.toNat - 48)) 0

/-- JSON string body after the opening quote: returns the decoded content
and the remainder after the closing quote. -/
def parseJStrGo : Nat → List Char → Option (List Char × List Char)
  | 0, _ => none
  | _ + 1, [] => none
  | fuel + 1, c :: rest =>
      if c == '"' then some ([], rest)
      else if c == '\\' then
        match rest with
        | [] => none
        | e :: rest2 =>
            let esc : Option (Char × List Char) :=
              if e == '"' then some ('"', rest2)
              else if e == '\\' then some ('\\', rest2)
              else if e == '/' then some ('/', rest2)
              else if e == 'b' then some ('\x08', rest2)
              else if e == 'f' then some ('\x0c', rest2)
              else if e == 'n' then some ('\n', rest2)
              else if e == 'r' then some ('\r', rest2)
              else if e == 't' then some ('\t', rest2)
              else if e == 'u' then
                match rest2 with
                | h1 :: h2 :: h3 :: h4 :: rest3 =>
                    match hexVal h1, hexVal h2, hexVal h3, hexVal h4 with
                    | some a, some b, some c2, some d =>
                        some (Char.ofNat (((a * 16 + b) * 16 + c2) * 16 + d),
                          rest3)
                    | _, _, _, _ => none
                | _ => none
              else none
            match esc with
            | some (ch, r2) =>
                match parseJStrGo fuel r2 with
                | some (content, r3) => some (ch :: content, r3)
                | none => none
            | none => none
      else if c.toNat < 32 then none
      else
        match parseJStrGo fuel rest with
        | some (content, r3) => some (c :: content, r3)
        | none => none

def parseExpDigits (neg : Bool) (base : ℚ) (cs : List Char) :
    Option (ℚ × List Char) :=
  let eneg : Bool × List Char :=
    match cs with
    | '+' :: r => (false, r)
    | '-' :: r => (true, r)
    | _ => (false, cs)
  let ed := eneg.2.takeWhile Char.isDigit
  if ed.isEmpty then none
  else
    let mag : ℚ := (10 : ℚ) ^ digitsToNat ed
    let v : ℚ := if eneg.1 then base / mag else base * mag
    some ((if neg then -v else v), eneg.2.drop ed.length)

def parseExpPart (neg : Bool) (base : ℚ) (cs : List Char) :
    Option (ℚ × List Char) :=
  match cs with
  | 'e' :: rest => parseExpDigits neg base rest
  | 'E' :: rest => parseExpDigits neg base rest
  | _ => some ((if neg then -base else base), cs)

/-- A JSON number: `-?(0|[1-9]\d*)(\.\d+)?([eE][+-]?\d+)?`. -/
def parseNum (cs : List Char) : Option (ℚ × List Char) :=
  let st : Bool × List Char :=
    match cs with
    | '-' :: rest => (true, rest)
    | _ => (false, cs)
  let intDigits := st.2.takeWhile Char.isDigit
  let cs2 := st.2.drop intDigits.length
  if intDigits.isEmpty then none
  else if 1 < intDigits.length && intDigits.head? == some '0' then none
  else
    let ipart : ℚ := (digitsToNat intDigits : ℚ)
    match cs2 with
    | '.' :: cs3 =>
        let fd := cs3.takeWhile Char.isDigit
        if fd.isEmpty then none
        else
          parseExpPart st.1
            (ipart + (digitsToNat fd : ℚ) / ((10 : ℚ) ^ fd.length))
            (cs3.drop fd.length)
    | _ => parseExpPart st.1 ipart cs2

/-- Successive assignment of parsed members into a dict: a duplicate key
keeps its first position but takes the last value, as in Python. -/
def dedupObj (fs : List (String × JVal)) : JObj :=
  fs.foldl (fun acc p => objSet acc p.1 p.2) []

mutual

def parseJVal : Nat → List Char → Option (JVal × List Char)
  | 0, _ => none
  | fuel + 1, cs =>
      match skipWsJ cs with
      | [] => none
      | c :: rest =>
          if c == '\x7b' then
            match skipWsJ rest with
            | '\x7d' :: rest2 => some (.jobj [], rest2)
            | _ =>
                match parseJMembers fuel (skipWsJ rest) with
                | some (fs, rest2) => some (.jobj (dedupObj fs), rest2)
                | none => none
          else if c == '[' then
            match skipWsJ rest with
            | ']' :: rest2 => some (.jarr [], rest2)
            | _ =>
                match parseJItems fuel (skipWsJ rest) with
                | some (xs, rest2) => some (.jarr xs, rest2)
                | none => none
          else if c == '"' then
            match parseJStrGo (rest.length + 1) rest with
            | some (content, rest2) => some (.jstr (String.mk content), rest2)
            | none => none
          else if leadsWith "true".toList (c :: rest) then
            some (.jbool true, rest.drop 3)
          else if leadsWith "false".toList (c :: rest) then
            some (.jbool false, rest.drop 4)
          else if leadsWith "null".toList (c :: rest) then
            some (.jnull, rest.drop 3)
          else
            match parseNum (c :: rest) with
            | some (q, rest2) => some (.jnum q, rest2)
            | none => none

def parseJMembers : Nat → List Char → Option (List (String × JVal) × List Char)
  | 0, _ => none
  | fuel + 1, cs =>
      match cs with
      | '"' :: rest =>
          match parseJStrGo (rest.length + 1) rest with
          | some (key, rest2) =>
              match skipWsJ rest2 with
              | ':' :: rest3 =>
                  match parseJVal fuel rest3 with
                  | some (v, rest4) =>
                      match skipWsJ rest4 with
                      | ',' :: rest5 =>
                          match parseJMembers fuel (skipWsJ rest5) with
                          | some (fs, rest6) =>
                              some ((String.mk key, v) :: fs, rest6)
                          | none => none
                      | '\x7d' :: rest5 => some ([(String.mk key, v)], rest5)
                      | _ => none
                  | none => none
              | _ => none
          | none => none
      | _ => none

def parseJItems : Nat → List Char → Option (List JVal × List Char)
  | 0, _ => none
  | fuel + 1, cs =>
      match parseJVal fuel cs with
      | some (v, rest) =>
          match skipWsJ rest with
          | ',' :: rest2 =>
              match parseJItems fuel (skipWsJ rest2) with
              | some (xs, rest3) => some (v :: xs, rest3)
              | none => none
          | ']' :: rest2 => some ([v], rest2)
          | _ => none
      | none => none

end

/-- `json.loads` on a character list: the whole input (modulo surrounding
whitespace) must be one JSON value, otherwise "Extra data". -/
def jsonLoadsL (cs : List Char) : Option JVal :=
  match parseJVal (2 * cs.length + 2) cs with
  | some (v, rest) => if (skipWsJ rest).isEmpty then some v else none
  | none => none

/-- Find the lazy end of the fenced group `\{.+?\}` at a position inside
`body` (the characters after the opening brace): the smallest index `i`
with `body[i] = the closing brace`, at least one group character, and the
fence suffix ```` \s*``` ```` right after. -/
def fenceFindClose : Nat → List Char → Nat → Option Nat
  | 0, _, _ => none
  | _ + 1, [], _ => none
  | fuel + 1, c :: rest, i =>
      if c == '\x7d' && decide (1 ≤ i) &&
          leadsWith "```".toList (rest.dropWhile isPySpace) then some i
      else fenceFindClose fuel rest (i + 1)

/-- Try to match ```` ```(?:json|vega-lite)?\s*(\{.+?\})\s*``` ```` at the
head of `cs`; returns the group and the remainder after the whole match. -/
def fencedTryTag (tag : List Char) (after : List Char) :
    Option (List Char × List Char) :=
  if leadsWith tag after then
    let b := (after.drop tag.length).dropWhile isPySpace
    match b with
    | '\x7b' :: body =>
        match fenceFindClose (body.length + 1) body 0 with
        | some i =>
            some ('\x7b' :: body.take (i + 1),
              ((body.drop (i + 1)).dropWhile isPySpace).drop 3)
        | none => none
    | _ => none
  else none

def fencedTryAt (cs : List Char) : Option (List Char × List Char) :=
  if leadsWith "```".toList cs then
    let after := cs.drop 3
    match fencedTryTag "json".toList after with
    | some r => some r
    | none =>
        match fencedTryTag "vega-lite".toList after with
        | some r => some r
        | none => fencedTryTag [] after
  else none

/-- All non-overlapping fenced-block groups, scanning left to right
(the behaviour of `re.findall` for this pattern). -/
def fencedFindAll : Nat → List Char → List (List Char)
  | 0, _ => []
  | _ + 1, [] => []
  | fuel + 1, c :: rest =>
      match fencedTryAt (c :: rest) with
      | some (g, after) => g :: fencedFindAll fuel after
      | none => fencedFindAll fuel rest

/-- `text.replace(pat, "")` for a non-empty pattern. -/
def replaceAllL : Nat → List Char → List Char → List Char
  | 0, cs, _ => cs
  | _ + 1, [], _ => []
  | fuel + 1, c :: rest, pat =>
      if leadsWith pat (c :: rest) then
        replaceAllL fuel ((c :: rest).drop pat.length) pat
      else c :: replaceAllL fuel rest pat

/-- Try to match ```` ```(?:json|vega-lite)?\s* ```` + the literal group +
```` \s*``` ```` at the head of `cs`; returns the remainder. -/
def fencedSubTag (tag : List Char) (m : List Char) (after : List Char) :
    Option (List Char) :=
  if leadsWith tag after then
    let b := (after.drop tag.length).dropWhile isPySpace
    if leadsWith m b then
      let b2 := (b.drop m.length).dropWhile isPySpace
      if leadsWith "```".toList b2 then some (b2.drop 3) else none
    else none
  else none

def fencedSubTry (m : List Char) (cs : List Char) : Option (List Char) :=
  if leadsWith "```".toList cs then
    let after := cs.drop 3
    match fencedSubTag "json".toList m after with
    | some r => some r
    | none =>
        match fencedSubTag "vega-lite".toList m after with
        | some r => some r
        | none => fencedSubTag [] m after
  else none

/-- `re.sub` of the escaped-group fence pattern with the empty string. -/
def fencedSubAll : Nat → List Char → List Char → List Char
  | 0, cs, _ => cs
  | _ + 1, [], _ => []
  | fuel + 1, c :: rest, m =>
      match fencedSubTry m (c :: rest) with
      | some after => fencedSubAll fuel after m
      | none => c :: fencedSubAll fuel rest m

/-- The three removal operations run on acceptance of a fenced block. -/
def removeFenced (t : List Char) (m : List Char) : List Char :=
  let t1 := replaceAllL (t.length + 1) t
    ("```json\n".toList ++ m ++ "\n```".toList)
  let t2 := replaceAllL (t1.length + 1) t1 ("```".toList ++ m ++ "```".toList)
  fencedSubAll (t2.length + 1) t2 m

/-- Strategy 1: accept the first fenced JSON block that parses to a dict
holding an `encoding` or `mark` key; remove exactly that block. -/
def tryFencedList : List (List Char) → List Char → Option (JObj × List Char)
  | [], _ => none
  | m :: ms, t =>
      match jsonLoadsL m with
      | some (.jobj fs) =>
          if hasK fs "encoding" || hasK fs "mark" then
            some (fs, removeFenced t m)
          else tryFencedList ms t
      | some _ => tryFencedList ms t
      | none => tryFencedList ms t

def tryFenced (t : List Char) : Option (JObj × List Char) :=
  tryFencedList (fencedFindAll (t.length + 1) t) t

/-- The indices of every opening brace in the text. -/
def bracePositions : List Char → Nat → List Nat
  | [], _ => []
  | c :: rest, i =>
      if c == '\x7b' then i :: bracePositions rest (i + 1)
      else bracePositions rest (i + 1)

/-- Manual balanced-brace matching over the remainder: the first position
where the running depth returns to zero at a closing brace; returns the
candidate length (`end_pos - start_pos`). -/
def braceDepthEnd : List Char → Int → Nat → Option Nat
  | [], _, _ => none
  | c :: rest, depth, i =>
      if c == '\x7b' then braceDepthEnd rest (depth + 1) (i + 1)
      else if c == '\x7d' then
        if depth - 1 = 0 then some (i + 1)
        else braceDepthEnd rest (depth - 1) (i + 1)
      else braceDepthEnd rest depth (i + 1)

/-- Strategy 2: for each opening brace, skip cheaply unless the remainder
mentions `"mark"` or `"encoding"`; then try parsing the whole remainder,
and on failure the balanced-brace candidate; accept the first dict with a
chart marker and splice it out of the text. -/
def strategy2go : List Nat → List Char → Option (JObj × List Char)
  | [], _ => none
  | p :: ps, cs =>
      let remaining := cs.drop p
      if !subOf "\"mark\"".toList remaining &&
          !subOf "\"encoding\"".toList remaining then
        strategy2go ps cs
      else
        match jsonLoadsL remaining with
        | some (.jobj fs) =>
            if hasK fs "encoding" || hasK fs "mark" then
              some (fs, rstripL (cs.take p))
            else strategy2go ps cs
        | some _ => strategy2go ps cs
        | none =>
            match braceDepthEnd remaining 0 0 with
            | some len =>
                match jsonLoadsL (remaining.take len) with
                | some (.jobj fs) =>
                    if hasK fs "encoding" || hasK fs "mark" then
                      some (fs, stripL (cs.take p ++ cs.drop (p + len)))
                    else strategy2go ps cs
                | some _ => strategy2go ps cs
                | none => strategy2go ps cs
            | none => strategy2go ps cs

/-- Case-insensitive prefix match. -/
def ciLeads : List Char → List Char → Bool
  | [], _ => true
  | _ :: _, [] => false
  | n :: ns, h :: hs => n.toLower == h.toLower && ciLeads ns hs

/-- `[^.]*?:\s*$` after the literal `chart`: a colon reachable without
crossing a period, with only whitespace after it. -/
def colonTail : List Char → Bool
  | [] => false
  | c :: rest =>
      if c == ':' && rest.all isPySpace then true
      else if c == '.' then false
      else colonTail rest

/-- Does the orphaned chart lead-in pattern
`Here('s| is) (a |the )?(bar |line |pie )?chart[^.]*?:\s*$` (ignore-case)
match at the head of `cs`? -/
def leadInAt (cs : List Char) : Bool :=
  if ciLeads "here".toList cs then
    let a := cs.drop 4
    ["'s ".toList, " is ".toList].any (fun alt =>
      if ciLeads alt a then
        let b := a.drop alt.length
        ["a ".toList, "the ".toList, []].any (fun opt1 =>
          if ciLeads opt1 b then
            let c := b.drop opt1.length
            ["bar ".toList, "line ".toList, "pie ".toList, []].any (fun opt2 =>
              if ciLeads opt2 c then
                let d := c.drop opt2.length
                if ciLeads "chart".toList d then colonTail (d.drop 5)
                else false
              else false)
          else false)
      else false)
  else false

/-- `re.sub` of the lead-in pattern with the empty string: because every
match is anchored to the end of the text, removal keeps the prefix before
the leftmost match. -/
def leadInStripGo : List Char → List Char
  | [] => []
  | c :: rest => if leadInAt (c :: rest) then [] else c :: leadInStripGo rest

/-- The unconditional final cleanup of the extractor: strip a trailing
orphaned chart lead-in, then surrounding whitespace. -/
def finalCleanup (cs : List Char) : List Char := stripL (leadInStripGo cs)

/-- `ChatHandler._extract_chart_from_text`: fenced strategy first, then
inline-brace strategy, then the final cleanup on whatever text remains. -/
def extractChartFromText (text : String) : String × Option JObj :=
  let cs := text.toList
  match tryFenced cs with
  | some (fs, t') => (String.mk (finalCleanup t'), some fs)
  | none =>
      match strategy2go (bracePositions cs 0) cs with
      | some (fs, t') => (String.mk (finalCleanup t'), some fs)
      | none => (String.mk (finalCleanup cs), none)

/-- `ChatHandler._strip_vega_json`. -/
def stripVegaJson (text : String) : String := (extractChartFromText text).1

/-! ## Streamed message parser (`ChatHandler._parse_message`) and the
display message model (`ChatMessage`).  Proto sub-messages are modelled
with `Option` for presence; proto-plus truthiness of a set submessage is
presence plus the written truthiness checks of the source. -/

structure TextMessage where
  parts : List String

/-- `DataMessage`: `generated_sql` (empty when unset, as for proto string
fields) and the deep-converted dict of `result`. -/
structure DataMessage where
  generated_sql : String
  result : Option JVal

structure ChartImage where
  data : String

/-- `ChartResult`: the deep-converted `vegaConfig` dict and the optional
rasterized image. -/
structure ChartResult where
  vega_config : JObj
  image : Option ChartImage

structure ChartMessage where
  result : Option ChartResult

/-- `AnalysisMessage`: the stringified `progress_event` (empty = unset). -/
structure AnalysisMessage where
  progress_event : String

structure ErrorMessage where
  text : String

structure SystemMessage where
  text : Option TextMessage
  data : Option DataMessage
  chart : Option ChartMessage
  analysis : Option AnalysisMessage
  error : Option ErrorMessage

structure Message where
  user_message : Option String
  system_message : Option SystemMessage

/-- The `ChatMessage` dataclass (display message). -/
structure ChatMessage where
  role : String
  content : String
  message_type : String
  data : Option TableResult
  chart_spec : Option JObj
  chart_image : Option String
  sql_query : Option String

/-- `" ".join(parts)`. -/
def joinParts : List String → String
  | [] => ""
  | [p] => p
  | p :: rest => p ++ " " ++ joinParts rest

/-- Default the `$schema` key when absent (insertion appends). -/
def ensureSchema (sp : JObj) : JObj :=
  if !hasK sp "$schema" then objSet sp "$schema" (.jstr vegaLiteV5Schema)
  else sp

/-- The TEXT section of `_parse_message`: join the parts, extract an
embedded chart spec, emit the chart message then the cleaned text. -/
def textBlock (s : SystemMessage) : List ChatMessage :=
  match s.text with
  | none => []
  | some tm =>
      if tm.parts.isEmpty then []
      else
        let text := joinParts tm.parts
        if (stripL text.toList).isEmpty then []
        else
          let r := extractChartFromText text
          (match r.2 with
           | some sp =>
              [⟨"assistant", "", "chart", none, some (ensureSchema sp),
                none, none⟩]
           | none => []) ++
          (if !(stripL r.1.toList).isEmpty then
            [⟨"assistant", r.1, "text", none, none, none, none⟩]
           else [])

/-- The DATA section: the generated SQL then the decoded table (carrying
the same SQL string when present). -/
def dataBlock (s : SystemMessage) : List ChatMessage :=
  match s.data with
  | none => []
  | some dm =>
      (if dm.generated_sql ≠ "" then
        [⟨"assistant", dm.generated_sql, "sql", none, none, none,
          some dm.generated_sql⟩]
       else []) ++
      (match dm.result with
       | some dr =>
          match parseDataResult dr with
          | some tbl =>
              [⟨"assistant", "", "data", some tbl, none, none,
                if dm.generated_sql ≠ "" then some dm.generated_sql
                else none⟩]
          | none => []
       | none => [])

/-- The CHART section: the vector spec (schema defaulted) then the
rasterized image, each as its own chart message. -/
def chartBlock (s : SystemMessage) : List ChatMessage :=
  match s.chart with
  | none => []
  | some cm =>
      match cm.result with
      | none => []
      | some cr =>
          (if !cr.vega_config.isEmpty then
            [⟨"assistant", "", "chart", none,
              some (ensureSchema cr.vega_config), none, none⟩]
           else []) ++
          (match cr.image with
           | some img =>
              if img.data ≠ "" then
                [⟨"assistant", "", "chart", none, none, some img.data, none⟩]
              else []
           | none => [])

/-- The ANALYSIS section: the stringified progress event. -/
def analysisBlock (s : SystemMessage) : List ChatMessage :=
  match s.analysis with
  | none => []
  | some am =>
      if am.progress_event ≠ "" then
        [⟨"assistant", am.progress_event, "reasoning", none, none, none,
          none⟩]
      else []

/-- The ERROR section. -/
def errorBlock (s : SystemMessage) : List ChatMessage :=
  match s.error with
  | none => []
  | some em =>
      if em.text ≠ "" then
        [⟨"assistant", em.text, "error", none, none, none, none⟩]
      else []

/-- The system-message body of `_parse_message`: the five sections append
their display messages to `results` in source order. -/
def parseSystem (s : SystemMessage) : List ChatMessage :=
  textBlock s ++ dataBlock s ++ chartBlock s ++ analysisBlock s ++
    errorBlock s

/-- `ChatHandler._parse_message`: skip user echoes with non-empty text,
then fan the system message out into typed display messages. -/
def parseMessage (m : Message) : List ChatMessage :=
  if (match m.user_message with | some t => t != "" | none => false) then []
  else
    match m.system_message with
    | none => []
    | some s => parseSystem s

/-- Segment 1 of the claimed emission order: the chart extracted from the
text part. -/
def segChartFromText (s : SystemMessage) : List ChatMessage :=
  match s.text with
  | none => []
  | some tm =>
      if tm.parts.isEmpty then []
      else
        let text := joinParts tm.parts
        if (stripL text.toList).isEmpty then []
        else
          match (extractChartFromText text).2 with
          | some sp =>
              [⟨"assistant", "", "chart", none, some (ensureSchema sp),
                none, none⟩]
          | none => []

/-- Segment 2: the cleaned text message. -/
def segCleanText (s : SystemMessage) : List ChatMessage :=
  match s.text with
  | none => []
  | some tm =>
      if tm.parts.isEmpty then []
      else
        let text := joinParts tm.parts
        if (stripL text.toList).isEmpty then []
        else
          if !(stripL (extractChartFromText text).1.toList).isEmpty then
            [⟨"assistant", (extractChartFromText text).1, "text", none,
              none, none, none⟩]
          else []

/-- Segment 3: the generated-SQL message. -/
def segSql (s : SystemMessage) : List ChatMessage :=
  match s.data with
  | none => []
  | some dm =>
      if dm.generated_sql ≠ "" then
        [⟨"assistant", dm.generated_sql, "sql", none, none, none,
          some dm.generated_sql⟩]
      else []

/-- Segment 4: the decoded-table message. -/
def segData (s : SystemMessage) : List ChatMessage :=
  match s.data with
  | none => []
  | some dm =>
      match dm.result with
      | some dr =>
          match parseDataResult dr with
          | some tbl =>
              [⟨"assistant", "", "data", some tbl, none, none,
                if dm.generated_sql ≠ "" then some dm.generated_sql
                else none⟩]
          | none => []
      | none => []

/-- Segment 5: the vector chart spec from the dedicated chart part. -/
def segChartSpec (s : SystemMessage) : List ChatMessage :=
  match s.chart with
  | none => []
  | some cm =>
      match cm.result with
      | none => []
      | some cr =>
          if !cr.vega_config.isEmpty then
            [⟨"assistant", "", "chart", none,
              some (ensureSchema cr.vega_config), none, none⟩]
          else []

/-- Segment 6: the rasterized chart image from the chart part. -/
def segChartImage (s : SystemMessage) : List ChatMessage :=
  match s.chart with
  | none => []
  | some cm =>
      match cm.result with
      | none => []
      | some cr =>
          match cr.image with
          | some img =>
              if img.data ≠ "" then
                [⟨"assistant", "", "chart", none, none, some img.data, none⟩]
              else []
          | none => []

/-- Segment 7: the reasoning message. -/
def segReasoning (s : SystemMessage) : List ChatMessage :=
  match s.analysis with
  | none => []
  | some am =>
      if am.progress_event ≠ "" then
        [⟨"assistant", am.progress_event, "reasoning", none, none, none,
          none⟩]
      else []

/-- Segment 8: the error message. -/
def segError (s : SystemMessage) : List ChatMessage :=
  match s.error with
  | none => []
  | some em =>
      if em.text ≠ "" then
        [⟨"assistant", em.text, "error", none, none, none, none⟩]
      else []

/-! ## Stream processing (`ChatHandler._process_chat_response`).  The
response stream is modelled as a list of items: either a well-formed
message or the point at which iterating the stream raises.  The `for`
loop consumes items until the first failure; the `except` block appends
one error display message and returns. -/

inductive StreamItem : Type where
  | message (m : Message)
  | failure (e : String)

/-- The single error display message built in the `except` handler. -/
def errorChat (e : String) : ChatMessage :=
  ⟨"assistant", "Error: " ++ e, "error", none, none, none, none⟩

/-- The accumulation loop of `_process_chat_response`. -/
def processGo (acc : List ChatMessage) : List StreamItem → List ChatMessage
  | [] => acc
  | .message m :: rest => processGo (acc ++ parseMessage m) rest
  | .failure e :: _ => acc ++ [errorChat e]

def processChatResponse (stream : List StreamItem) : List ChatMessage :=
  processGo [] stream

/-! ## Theorems -/

theorem lookupF_isSome_iff_any (fs : JObj) (key : String) :
    (lookupF fs key).isSome = fs.any (fun p => p.1 == key) := by
  induction fs with
  | nil => rfl
  | cons p rest ih =>
      obtain ⟨k, v⟩ := p
      by_cases h : k = key <;> simp [lookupF, h, ih]

/-- C2: for every cell wrapper mapping, `_extract_proto_value` selects the
value of the first present tag in the order `stringValue`, `numberValue`,
`boolValue`, `integerValue`; otherwise null (`jnull`) when `nullValue` is
present or the wrapper is empty; otherwise the first value under any other
key.  In particular it maps the wrapper with both `stringValue = "9"` and
`numberValue = 9` to the string `"9"`. -/
theorem extract_proto_value_precedence :
    (∀ fs v, lookupF fs "stringValue" = some v →
        extractProtoValue (.jobj fs) = .ok v)
  ∧ (∀ fs v, lookupF fs "stringValue" = none →
        lookupF fs "numberValue" = some v →
        extractProtoValue (.jobj fs) = .ok v)
  ∧ (∀ fs v, lookupF fs "stringValue" = none →
        lookupF fs "numberValue" = none →
        lookupF fs "boolValue" = some v →
        extractProtoValue (.jobj fs) = .ok v)
  ∧ (∀ fs v, lookupF fs "stringValue" = none →
        lookupF fs "numberValue" = none →
        lookupF fs "boolValue" = none →
        lookupF fs "integerValue" = some v →
        extractProtoValue (.jobj fs) = .ok v)
  ∧ (∀ fs v, lookupF fs "stringValue" = none →
        lookupF fs "numberValue" = none →
        lookupF fs "boolValue" = none →
        lookupF fs "integerValue" = none →
        lookupF fs "nullValue" = some v →
        extractProtoValue (.jobj fs) = .ok .jnull)
  ∧ (extractProtoValue (.jobj []) = .ok .jnull)
  ∧ (∀ k v rest, lookupF ((k, v) :: rest) "stringValue" = none →
        lookupF ((k, v) :: rest) "numberValue" = none →
        lookupF ((k, v) :: rest) "boolValue" = none →
        lookupF ((k, v) :: rest) "integerValue" = none →
        lookupF ((k, v) :: rest) "nullValue" = none →
        extractProtoValue (.jobj ((k, v) :: rest)) = .ok v)
  ∧ (extractProtoValue
        (.jobj [("stringValue", .jstr "9"), ("numberValue", .jnum 9)])
      = .ok (.jstr "9")) := by
  refine ⟨?_, ?_, ?_, ?_, ?_, ?_, ?_, ?_⟩
  · intro fs v h
    cases fs with
    | nil => simp [lookupF] at h
    | cons p rest =>
        simp [extractProtoValue, jTruthy, pyContains, hasK, h, pySubscript]
  · intro fs v hs h
    cases fs with
    | nil => simp [lookupF] at h
    | cons p rest =>
        simp [extractProtoValue, jTruthy, pyContains, hasK, hs, h, pySubscript]
  · intro fs v hs hn h
    cases fs with
    | nil => simp [lookupF] at h
    | cons p rest =>
        simp [extractProtoValue, jTruthy, pyContains, hasK, hs, hn, h,
          pySubscript]
  · intro fs v hs hn hb h
    cases fs with
    | nil => simp [lookupF] at h
    | cons p rest =>
        simp [extractProtoValue, jTruthy, pyContains, hasK, hs, hn, hb, h,
          pySubscript]
  · intro fs v hs hn hb hi h
    cases fs with
    | nil => simp [lookupF] at h
    | cons p rest =>
        simp [extractProtoValue, jTruthy, pyContains, hasK, hs, hn, hb, hi, h,
          pySubscript]
  · rfl
  · intro k v rest hs hn hb hi hnl
    simp [extractProtoValue, jTruthy, pyContains, hasK, hs, hn, hb, hi, hnl,
      pyLen, pyFirstValue]
  · rfl

/-- Concrete instantiation of `extract_proto_value_precedence`. -/
theorem extract_proto_value_precedence_witness :
    extractProtoValue (.jobj [("boolValue", .jbool true)]) = .ok (.jbool true) :=
  extract_proto_value_precedence.2.2.1 [("boolValue", .jbool true)]
    (.jbool true) rfl rfl rfl

theorem lookupF_objSet_ne (fs : JObj) (k k' : String) (v : JVal)
    (h : k' ≠ k) : lookupF (objSet fs k v) k' = lookupF fs k' := by
  induction fs with
  | nil =>
      have h' : ¬k = k' := fun hh => h hh.symm
      simp [objSet, lookupF, h']
  | cons p rest ih =>
      obtain ⟨k0, w⟩ := p
      by_cases hk : k0 = k
      · subst hk
        simp only [objSet, beq_self_eq_true, if_true, lookupF]
        by_cases hk' : k0 = k'
        · exact absurd hk'.symm h
        · simp [hk']
      · simp only [objSet, beq_iff_eq, hk, if_false, lookupF]
        by_cases hk' : k0 = k'
        · simp [hk']
        · simp [hk', ih]

theorem getDF_objSet_ne (fs : JObj) (k k' : String) (v d : JVal)
    (h : k' ≠ k) : getDF (objSet fs k v) k' d = getDF fs k' d := by
  simp [getDF, lookupF_objSet_ne fs k k' v h]

theorem schemaColumns_set_fd (fs : JObj) (w : JVal) :
    schemaColumns (objSet fs "formattedData" w) = schemaColumns fs := by
  have h : ("schema" : String) ≠ "formattedData" := by decide
  simp [schemaColumns, getDF_objSet_ne fs "formattedData" "schema" w _ h]

theorem getData_set_fd (fs : JObj) (w : JVal) :
    getDF (objSet fs "formattedData" w) "data" (.jarr [])
      = getDF fs "data" (.jarr []) := by
  have h : ("data" : String) ≠ "formattedData" := by decide
  exact getDF_objSet_ne fs "formattedData" "data" w _ h

/-- C3: the decoder retries on the `"formattedData"` field iff the primary
`"data"` extraction yielded zero rows.  When the primary extraction yields
one or more rows (its cells may all be null), the `"formattedData"` field
is never consulted: overwriting it with any value leaves the result
unchanged, and the result is exactly the primary table.  When the primary
extraction yields zero rows, the result is determined by the fallback
extraction. -/
theorem parse_data_result_fallback_iff_zero_rows :
    (∀ fs cols0 st w,
        schemaColumns fs = .ok cols0 →
        extractPrimary cols0 (getDF fs "data" (.jarr [])) = .ok st →
        st.2 ≠ [] →
        parseDataResult (.jobj (objSet fs "formattedData" w)) =
            parseDataResult (.jobj fs) ∧
          parseDataResult (.jobj fs) = some ⟨st.1, st.2⟩)
  ∧ (∀ fs cols0 cols1 st',
        schemaColumns fs = .ok cols0 →
        extractPrimary cols0 (getDF fs "data" (.jarr [])) = .ok (cols1, []) →
        extractFallback cols1 (getDF fs "formattedData" (.jarr [])) = .ok st' →
        parseDataResult (.jobj fs) =
          (if !st'.1.isEmpty || !st'.2.isEmpty then some ⟨st'.1, st'.2⟩
           else none)) := by
  constructor
  · intro fs cols0 st w hcols hprim hrows
    obtain ⟨c1, r1⟩ := st
    simp only at hrows
    have hre : r1.isEmpty = false := by
      cases r1 with
      | nil => exact absurd rfl hrows
      | cons a l => rfl
    constructor
    · simp [parseDataResult, schemaColumns_set_fd, getData_set_fd, hcols,
        hprim, hre]
    · simp [parseDataResult, hcols, hprim, hre]
  · intro fs cols0 cols1 st' hcols hprim hfb
    obtain ⟨c2, r2⟩ := st'
    simp [parseDataResult, hcols, hprim, hfb, List.isEmpty]

/-- Concrete instantiation of the no-fallback direction: the primary field
yields a single all-null row, the fallback field holds a non-null row, and
the decoder returns the all-null primary table while ignoring an arbitrary
overwrite of `"formattedData"`. -/
theorem parse_data_result_fallback_iff_zero_rows_witness :
    parseDataResult (.jobj (objSet
        [("schema", .jobj [("fields", .jarr [.jobj [("name", .jstr "a")]])]),
         ("data", .jarr [.jobj [("fields",
            .jobj [("a", .jobj [("nullValue", .jnull)])])]]),
         ("formattedData", .jarr [.jobj [("a", .jstr "X")]])]
        "formattedData" (.jarr []))) =
      parseDataResult (.jobj
        [("schema", .jobj [("fields", .jarr [.jobj [("name", .jstr "a")]])]),
         ("data", .jarr [.jobj [("fields",
            .jobj [("a", .jobj [("nullValue", .jnull)])])]]),
         ("formattedData", .jarr [.jobj [("a", .jstr "X")]])]) ∧
    parseDataResult (.jobj
        [("schema", .jobj [("fields", .jarr [.jobj [("name", .jstr "a")]])]),
         ("data", .jarr [.jobj [("fields",
            .jobj [("a", .jobj [("nullValue", .jnull)])])]]),
         ("formattedData", .jarr [.jobj [("a", .jstr "X")]])]) =
      some ⟨[.jstr "a"], [[.jnull]]⟩ :=
  parse_data_result_fallback_iff_zero_rows.1
    [("schema", .jobj [("fields", .jarr [.jobj [("name", .jstr "a")]])]),
     ("data", .jarr [.jobj [("fields",
        .jobj [("a", .jobj [("nullValue", .jnull)])])]]),
     ("formattedData", .jarr [.jobj [("a", .jstr "X")]])]
    [.jstr "a"] ([.jstr "a"], [[.jnull]]) (.jarr []) rfl rfl (by simp)

theorem lookupF_objDel_ne (fs : JObj) (k k' : String) (h : k' ≠ k) :
    lookupF (objDel fs k) k' = lookupF fs k' := by
  induction fs with
  | nil => rfl
  | cons p rest ih =>
      obtain ⟨k0, w⟩ := p
      by_cases hk : k0 = k
      · subst hk
        have h' : ¬k0 = k' := fun hh => h hh.symm
        simp [objDel, lookupF, h', ih]
      · by_cases hk' : k0 = k'
        · simp [objDel, lookupF, hk, hk', h]
        · simp [objDel, lookupF, hk, hk', ih]

theorem lookupF_objDel_self (fs : JObj) (k : String) :
    lookupF (objDel fs k) k = none := by
  induction fs with
  | nil => rfl
  | cons p rest ih =>
      obtain ⟨k0, w⟩ := p
      by_cases hk : k0 = k <;> simp [objDel, lookupF, hk, ih]

theorem lookupF_objSet_self (fs : JObj) (k : String) (v : JVal) :
    lookupF (objSet fs k v) k = some v := by
  induction fs with
  | nil => simp [objSet, lookupF]
  | cons p rest ih =>
      obtain ⟨k0, w⟩ := p
      by_cases hk : k0 = k <;> simp [objSet, lookupF, hk, ih]

theorem transformStep_lookup_ne (spec s' : JObj) (k : String)
    (hk : k ≠ "transform") (h : transformStep spec = .ok s') :
    lookupF s' k = lookupF spec k := by
  unfold transformStep at h
  split at h
  · cases h; rfl
  · split at h
    · cases h
    · split at h
      · cases h; exact lookupF_objDel_ne spec "transform" k hk
      · cases h; rfl

theorem sortStep_lookup_ne (spec s' : JObj) (k : String)
    (hk : k ≠ "encoding") (h : sortStep spec = .ok s') :
    lookupF s' k = lookupF spec k := by
  unfold sortStep at h
  split at h
  · cases h; rfl
  · cases h; exact lookupF_objSet_ne spec "encoding" k _ hk
  · cases h

theorem fixTemporalData_lookup_ne (spec s' : JObj) (k : String)
    (hk : k ≠ "data") (h : fixTemporalData spec = .ok s') :
    lookupF s' k = lookupF spec k := by
  unfold fixTemporalData at h
  split at h
  · cases h
  · split at h
    · cases h; rfl
    · split at h
      · cases h
      · split at h
        · cases h; rfl
        · split at h
          · cases h
          · cases h; exact lookupF_objSet_ne spec "data" k _ hk

theorem schemaStep_lookup_ne (spec : JObj) (k : String)
    (hk : k ≠ "$schema") : lookupF (schemaStep spec) k = lookupF spec k := by
  unfold schemaStep
  split
  · exact lookupF_objSet_ne spec "$schema" k _ hk
  · rfl

theorem cleanVegaSpec_inv (spec r : JObj) (h : cleanVegaSpec spec = .ok r) :
    ∃ s1 s2 s3, transformStep spec = .ok s1 ∧ sortStep s1 = .ok s2 ∧
      fixTemporalData s2 = .ok s3 ∧ r = schemaStep s3 := by
  unfold cleanVegaSpec at h
  split at h
  · cases h
  · rename_i s1 h1
    split at h
    · cases h
    · rename_i s2 h2
      split at h
      · cases h
      · rename_i s3 h3
        cases h
        exact ⟨s1, s2, s3, h1, h2, h3, rfl⟩

/-- The `$schema`, `transform` and non-`data` keys seen by the last pass
agree with the input spec for every key none of the passes writes. -/
theorem cleanVegaSpec_pres (spec s1 s2 s3 : JObj) (k : String)
    (hk1 : k ≠ "transform") (hk2 : k ≠ "encoding") (hk3 : k ≠ "data")
    (h1 : transformStep spec = .ok s1) (h2 : sortStep s1 = .ok s2)
    (h3 : fixTemporalData s2 = .ok s3) :
    lookupF s3 k = lookupF spec k := by
  rw [fixTemporalData_lookup_ne s2 s3 k hk3 h3,
    sortStep_lookup_ne s1 s2 k hk2 h2,
    transformStep_lookup_ne spec s1 k hk1 h1]

/-- C6: if any step of the `transform` list holds a `window` or `sort`
key, the normalized spec has no `transform` key at all; a transform list
with no such step passes through unchanged. -/
theorem clean_vega_spec_window_transform_drop :
    (∀ spec ts r, lookupF spec "transform" = some (.jarr ts) →
        ts.any isWindowStep = true →
        cleanVegaSpec spec = .ok r →
        lookupF r "transform" = none)
  ∧ (∀ spec ts r, lookupF spec "transform" = some (.jarr ts) →
        ts.any isWindowStep = false →
        cleanVegaSpec spec = .ok r →
        lookupF r "transform" = some (.jarr ts)) := by
  constructor
  · intro spec ts r hl hw hc
    obtain ⟨s1, s2, s3, h1, h2, h3, hr⟩ := cleanVegaSpec_inv spec r hc
    have ht : transformStep spec = .ok (objDel spec "transform") := by
      unfold transformStep
      rw [hl]
      simp [pyIterate, hw]
    rw [ht] at h1
    cases h1
    subst hr
    rw [schemaStep_lookup_ne s3 "transform" (by decide),
      fixTemporalData_lookup_ne s2 s3 "transform" (by decide) h3,
      sortStep_lookup_ne _ s2 "transform" (by decide) h2,
      lookupF_objDel_self]
  · intro spec ts r hl hw hc
    obtain ⟨s1, s2, s3, h1, h2, h3, hr⟩ := cleanVegaSpec_inv spec r hc
    have ht : transformStep spec = .ok spec := by
      unfold transformStep
      rw [hl]
      simp [pyIterate, hw]
    rw [ht] at h1
    cases h1
    subst hr
    rw [schemaStep_lookup_ne s3 "transform" (by decide),
      fixTemporalData_lookup_ne s2 s3 "transform" (by decide) h3,
      sortStep_lookup_ne _ s2 "transform" (by decide) h2,
      hl]

/-- Concrete instantiation of both directions of the transform rule. -/
theorem clean_vega_spec_window_transform_drop_witness :
    lookupF [] "transform" = none ∧
    lookupF [("transform", .jarr [.jobj [("filter", .jstr "a")]])] "transform"
      = some (.jarr [.jobj [("filter", .jstr "a")]]) := by
  constructor
  · exact clean_vega_spec_window_transform_drop.1
      [("transform", .jarr [.jobj [("window", .jarr [])],
        .jobj [("filter", .jstr "a")]])]
      [.jobj [("window", .jarr [])], .jobj [("filter", .jstr "a")]]
      [] rfl rfl rfl
  · exact clean_vega_spec_window_transform_drop.2
      [("transform", .jarr [.jobj [("filter", .jstr "a")]])]
      [.jobj [("filter", .jstr "a")]]
      [("transform", .jarr [.jobj [("filter", .jstr "a")]])] rfl rfl rfl

/-- C7 counterexample: the schema rule is conditional, not unconditional.
For an input spec that declares no `$schema` string, the normalizer's
output still has no schema marker at all — contradicting the claim that
the marker is set on every output. -/
theorem clean_vega_spec_schema_counterexample :
    cleanVegaSpec [("mark", .jstr "bar")] = .ok [("mark", .jstr "bar")] ∧
    lookupF [("mark", .jstr "bar")] "$schema" = none := ⟨rfl, rfl⟩

/-- C7 (amended): whenever the input spec holds a `$schema` key, the
normalizer overwrites it with the single compatible grammar version,
regardless of its value and independently of the other passes; when the
input declares no `$schema` key, none is added. -/
theorem clean_vega_spec_schema_overwrite :
    ∀ spec r, cleanVegaSpec spec = .ok r →
      (hasK spec "$schema" = true →
        lookupF r "$schema" = some (.jstr vegaLiteV5Schema)) ∧
      (hasK spec "$schema" = false → lookupF r "$schema" = none) := by
  intro spec r hc
  obtain ⟨s1, s2, s3, h1, h2, h3, hr⟩ := cleanVegaSpec_inv spec r hc
  subst hr
  have hpres : lookupF s3 "$schema" = lookupF spec "$schema" :=
    cleanVegaSpec_pres spec s1 s2 s3 "$schema" (by decide) (by decide)
      (by decide) h1 h2 h3
  constructor
  · intro hk
    have hk3 : hasK s3 "$schema" = true := by
      unfold hasK at hk ⊢
      rw [hpres]
      exact hk
    simp [schemaStep, hk3, lookupF_objSet_self]
  · intro hk
    have hk3 : hasK s3 "$schema" = false := by
      unfold hasK at hk ⊢
      rw [hpres]
      exact hk
    simp only [schemaStep, hk3, Bool.false_eq_true, if_false]
    rw [hpres]
    unfold hasK at hk
    cases hl : lookupF spec "$schema" with
    | none => rfl
    | some v => rw [hl] at hk; cases hk

/-- Concrete instantiation of the amended schema rule. -/
theorem clean_vega_spec_schema_overwrite_witness :
    lookupF [("$schema", .jstr vegaLiteV5Schema)] "$schema"
        = some (.jstr vegaLiteV5Schema) ∧
    lookupF [("mark", .jstr "line")] "$schema" = none := by
  constructor
  · exact (clean_vega_spec_schema_overwrite [("$schema", .jstr "v4")]
      [("$schema", .jstr vegaLiteV5Schema)] rfl).1 rfl
  · exact (clean_vega_spec_schema_overwrite [("mark", .jstr "line")]
      [("mark", .jstr "line")] rfl).2 rfl

theorem sampleCell_str (fs : String) (row : JVal) :
    sampleCell (.jstr fs) row = .ok (cellQ fs row) := by
  cases row <;> rfl

theorem sampleRows_str (fs : String) (rows : List JVal) :
    sampleRows (.jstr fs) rows = .ok (rows.filterMap (cellQ fs)) := by
  induction rows with
  | nil => rfl
  | cons r rs ih =>
      unfold sampleRows
      rw [sampleCell_str, ih]
      cases h : cellQ fs r <;> simp [List.filterMap_cons, h]

theorem shouldFixD_str_arr (fs : String) (xs : List JVal) :
    shouldFixD (.jstr fs) (.jarr xs) = .ok (decideP fs xs) := by
  simp [shouldFixD, pySlice5, sampleRows_str, decideP, pureSample]

theorem multRow_str (fs : String) (row : JVal) :
    multRow (.jstr fs) row = .ok (multRowP fs row) := by
  cases row with
  | jobj l =>
      unfold multRow multRowP
      cases h : (lookupF l fs).bind numLike <;> simp [h]
  | jstr s => rfl
  | jnum q => rfl
  | jbool b => rfl
  | jnull => rfl
  | jarr l => rfl

theorem multRows_str (fs : String) (xs : List JVal) :
    multRows (.jstr fs) xs = .ok (xs.map (multRowP fs)) := by
  induction xs with
  | nil => rfl
  | cons r rs ih =>
      unfold multRows
      rw [multRow_str, ih]
      rfl

theorem fixFieldM_str_arr (fs : String) (xs : List JVal) :
    fixFieldM (.jstr fs) (.jarr xs) = .ok (.jarr (fixFieldP fs xs)) := by
  unfold fixFieldM fixFieldP
  rw [shouldFixD_str_arr]
  cases h : decideP fs xs with
  | false => simp [h]
  | true => simp [h, multRows_str]

theorem cellQ_multRowP_self (fs : String) (row : JVal) :
    cellQ fs (multRowP fs row) = (cellQ fs row).map (· * 1000) := by
  cases row with
  | jobj l =>
      cases h : (lookupF l fs).bind numLike with
      | none =>
          simp only [multRowP, h, cellQ]
          rfl
      | some q =>
          simp only [multRowP, h, cellQ, lookupF_objSet_self]
          rfl
  | jstr s => rfl
  | jnum q => rfl
  | jbool b => rfl
  | jnull => rfl
  | jarr l => rfl

theorem cellQ_multRowP_ne (fs gs : String) (row : JVal) (h : fs ≠ gs) :
    cellQ fs (multRowP gs row) = cellQ fs row := by
  cases row with
  | jobj l =>
      cases hq : (lookupF l gs).bind numLike with
      | none => simp only [multRowP, hq]
      | some q =>
          simp only [multRowP, hq, cellQ]
          rw [lookupF_objSet_ne l gs fs _ h]
  | jstr s => rfl
  | jnum q => rfl
  | jbool b => rfl
  | jnull => rfl
  | jarr l => rfl

theorem inSecRange_mul_false (q : ℚ) (h : inSecRange q = true) :
    inSecRange (q * 1000) = false := by
  unfold inSecRange at h ⊢
  simp only [Bool.and_eq_true, decide_eq_true_eq] at h
  simp only [Bool.and_eq_false_iff, decide_eq_false_iff_not, not_lt]
  right
  nlinarith [h.1]

theorem takeMap (h : JVal → JVal) (n : Nat) (xs : List JVal) :
    (xs.map h).take n = (xs.take n).map h := by
  induction xs generalizing n with
  | nil => simp
  | cons x l ih =>
      cases n with
      | zero => simp
      | succ m => simp only [List.map_cons, List.take_succ_cons, ih]

theorem filterMap_cellQ_congr (f : String) (xs ys : List JVal)
    (h : xs.map (cellQ f) = ys.map (cellQ f)) :
    xs.filterMap (cellQ f) = ys.filterMap (cellQ f) := by
  induction xs generalizing ys with
  | nil =>
      cases ys with
      | nil => rfl
      | cons y l => simp at h
  | cons x l ih =>
      cases ys with
      | nil => simp at h
      | cons y m =>
          simp only [List.map_cons, List.cons.injEq] at h
          simp only [List.filterMap_cons, h.1]
          cases hy : cellQ f y <;> simp [ih m h.2]

theorem pureSample_mult_self (fs : String) (xs : List JVal) :
    pureSample fs (xs.map (multRowP fs)) = (pureSample fs xs).map (· * 1000) := by
  unfold pureSample
  rw [takeMap]
  generalize xs.take 5 = l
  induction l with
  | nil => rfl
  | cons r rs ih =>
      simp only [List.map_cons, List.filterMap_cons, cellQ_multRowP_self]
      cases h : cellQ fs r with
      | none => simpa [h] using ih
      | some q => simp [h, ih]

theorem decideP_mult_false (fs : String) (xs : List JVal)
    (h : decideP fs xs = true) : decideP fs (xs.map (multRowP fs)) = false := by
  unfold decideP at h ⊢
  rw [pureSample_mult_self]
  simp only [Bool.and_eq_true] at h
  obtain ⟨hne, hall⟩ := h
  cases hq : pureSample fs xs with
  | nil => rw [hq] at hne; simp at hne
  | cons q qs =>
      rw [hq] at hall
      simp only [List.all_cons, Bool.and_eq_true] at hall
      simp [inSecRange_mul_false q hall.1]

theorem sampleCell_nonstr (f : JVal) (hf : ∀ s, f ≠ .jstr s) (row : JVal)
    (c : Option ℚ) (h : sampleCell f row = .ok c) : c = none := by
  cases row with
  | jobj l =>
      cases f with
      | jstr s => exact absurd rfl (hf s)
      | jnum q => cases h; rfl
      | jbool b => cases h; rfl
      | jnull => cases h; rfl
      | jarr a => cases h
      | jobj o => cases h
  | jstr s => cases h; rfl
  | jnum q => cases h; rfl
  | jbool b => cases h; rfl
  | jnull => cases h; rfl
  | jarr a => cases h; rfl

theorem sampleRows_nonstr (f : JVal) (hf : ∀ s, f ≠ .jstr s)
    (rows : List JVal) (qs : List ℚ) (h : sampleRows f rows = .ok qs) :
    qs = [] := by
  induction rows generalizing qs with
  | nil => cases h; rfl
  | cons r rs ih =>
      unfold sampleRows at h
      split at h
      · cases h
      · rename_i c hc
        split at h
        · cases h
        · rename_i qs' hqs
          cases h
          rw [sampleCell_nonstr f hf r c hc]
          exact ih qs' hqs

theorem sampleRows_jstr_rows (f : JVal) (l : List Char) :
    sampleRows f (l.map (fun c => JVal.jstr (String.singleton c))) = .ok [] := by
  induction l with
  | nil => rfl
  | cons c cs ih =>
      unfold sampleRows
      simp only [List.map_cons]
      rw [ih]
      rfl

theorem shouldFixD_true_shape (f v : JVal) (h : shouldFixD f v = .ok true) :
    ∃ fs xs, f = .jstr fs ∧ v = .jarr xs := by
  unfold shouldFixD at h
  split at h
  · cases h
  · rename_i rows5 hr5
    split at h
    · cases h
    · rename_i qs hqs
      injection h with hb
      have hqne : qs ≠ [] := by
        intro hq
        subst hq
        simp at hb
      cases v with
      | jarr xs =>
          cases f with
          | jstr fs => exact ⟨fs, xs, rfl, rfl⟩
          | jnum q =>
              exact absurd (sampleRows_nonstr _ (by intro s h; cases h) _ _ hqs) hqne
          | jbool b =>
              exact absurd (sampleRows_nonstr _ (by intro s h; cases h) _ _ hqs) hqne
          | jnull =>
              exact absurd (sampleRows_nonstr _ (by intro s h; cases h) _ _ hqs) hqne
          | jarr a =>
              exact absurd (sampleRows_nonstr _ (by intro s h; cases h) _ _ hqs) hqne
          | jobj o =>
              exact absurd (sampleRows_nonstr _ (by intro s h; cases h) _ _ hqs) hqne
      | jstr s =>
          unfold pySlice5 at hr5
          cases hr5
          rw [sampleRows_jstr_rows] at hqs
          cases hqs
          exact absurd rfl hqne
      | jnum q => cases hr5
      | jbool b => cases hr5
      | jnull => cases hr5
      | jobj o => cases hr5

theorem fixFieldM_of_false (f v : JVal) (h : shouldFixD f v = .ok false) :
    fixFieldM f v = .ok v := by
  unfold fixFieldM
  rw [h]

theorem fixFieldM_stable (f v v' : JVal) (h : fixFieldM f v = .ok v') :
    shouldFixD f v' = .ok false := by
  unfold fixFieldM at h
  split at h
  · cases h
  · rename_i hd
    injection h with hv
    subst hv
    exact hd
  · rename_i hd
    obtain ⟨fs, xs, hg, hv⟩ := shouldFixD_true_shape f v hd
    subst hg
    subst hv
    simp only [multRows_str] at h
    injection h with hv'
    subst hv'
    have hdp : decideP fs xs = true := by
      rw [shouldFixD_str_arr] at hd
      injection hd
    rw [shouldFixD_str_arr]
    rw [decideP_mult_false fs xs hdp]

theorem sampleCell_multRowP (f : JVal) (gs : String) (hne : f ≠ .jstr gs)
    (row : JVal) : sampleCell f (multRowP gs row) = sampleCell f row := by
  cases row with
  | jobj l =>
      cases hq : (lookupF l gs).bind numLike with
      | none => simp only [multRowP, hq]
      | some q =>
          simp only [multRowP, hq]
          cases f with
          | jstr fs =>
              have hfs : fs ≠ gs := by
                intro he
                subst he
                exact hne rfl
              simp only [sampleCell]
              rw [lookupF_objSet_ne l gs fs _ hfs]
          | jnum q2 => rfl
          | jbool b => rfl
          | jnull => rfl
          | jarr a => rfl
          | jobj o => rfl
  | jstr s => rfl
  | jnum q => rfl
  | jbool b => rfl
  | jnull => rfl
  | jarr a => rfl

theorem sampleRows_multRowP (f : JVal) (gs : String) (hne : f ≠ .jstr gs)
    (rows : List JVal) :
    sampleRows f (rows.map (multRowP gs)) = sampleRows f rows := by
  induction rows with
  | nil => rfl
  | cons r rs ih =>
      simp only [List.map_cons]
      unfold sampleRows
      rw [sampleCell_multRowP f gs hne r, ih]

theorem shouldFixD_multRowP (f : JVal) (gs : String) (hne : f ≠ .jstr gs)
    (xs : List JVal) :
    shouldFixD f (.jarr (xs.map (multRowP gs))) = shouldFixD f (.jarr xs) := by
  unfold shouldFixD
  simp only [pySlice5]
  rw [takeMap, sampleRows_multRowP f gs hne]

theorem fixFieldM_pres_stable (g v v' f : JVal)
    (h : fixFieldM g v = .ok v') (hst : shouldFixD f v = .ok false) :
    shouldFixD f v' = .ok false := by
  unfold fixFieldM at h
  split at h
  · cases h
  · injection h with hv
    subst hv
    exact hst
  · rename_i hd
    obtain ⟨gs, xs, hg, hv⟩ := shouldFixD_true_shape g v hd
    subst hg
    subst hv
    simp only [multRows_str] at h
    injection h with hv'
    subst hv'
    by_cases hfg : f = .jstr gs
    · subst hfg
      rw [hd] at hst
      injection hst with hb
      cases hb
    · rw [shouldFixD_multRowP f gs hfg xs]
      exact hst

theorem fixFieldsFold_pres_stable (tfs : List JVal) (v v' f : JVal)
    (h : fixFieldsFold tfs v = .ok v')
    (hst : shouldFixD f v = .ok false) :
    shouldFixD f v' = .ok false := by
  induction tfs generalizing v with
  | nil =>
      unfold fixFieldsFold at h
      injection h with hv
      subst hv
      exact hst
  | cons g rest ih =>
      unfold fixFieldsFold at h
      split at h
      · cases h
      · rename_i v1 h1
        exact ih v1 h (fixFieldM_pres_stable g v v1 f h1 hst)

theorem fixFieldsFold_all_stable (tfs : List JVal) (v v' : JVal)
    (h : fixFieldsFold tfs v = .ok v') :
    ∀ f ∈ tfs, shouldFixD f v' = .ok false := by
  induction tfs generalizing v with
  | nil =>
      intro f hf
      simp at hf
  | cons g rest ih =>
      unfold fixFieldsFold at h
      split at h
      · cases h
      · rename_i v1 h1
        intro f hf
        cases List.mem_cons.mp hf with
        | inl he =>
            subst he
            exact fixFieldsFold_pres_stable rest v1 v' f h
              (fixFieldM_stable f v v1 h1)
        | inr hm => exact ih v1 h f hm

theorem fixFieldsFold_of_all_stable (tfs : List JVal) (v : JVal)
    (h : ∀ f ∈ tfs, shouldFixD f v = .ok false) :
    fixFieldsFold tfs v = .ok v := by
  induction tfs with
  | nil => rfl
  | cons g rest ih =>
      unfold fixFieldsFold
      rw [fixFieldM_of_false g v (h g (by simp))]
      exact ih (fun f hf => h f (by simp [hf]))

/-- A second run of the whole temporal-field loop over its own output is
the identity: every field's trigger decision is false afterwards. -/
theorem fixFieldsFold_idem (tfs : List JVal) (v v' : JVal)
    (h : fixFieldsFold tfs v = .ok v') : fixFieldsFold tfs v' = .ok v' :=
  fixFieldsFold_of_all_stable tfs v' (fixFieldsFold_all_stable tfs v v' h)

theorem fixFieldM_truthy (f v v' : JVal) (h : fixFieldM f v = .ok v') :
    jTruthy v' = jTruthy v := by
  unfold fixFieldM at h
  split at h
  · cases h
  · injection h with hv
    subst hv
    rfl
  · rename_i hd
    obtain ⟨fs, xs, hg, hv⟩ := shouldFixD_true_shape f v hd
    subst hg
    subst hv
    simp only [multRows_str] at h
    injection h with hv'
    subst hv'
    cases xs <;> rfl

theorem fixFieldsFold_truthy (tfs : List JVal) (v v' : JVal)
    (h : fixFieldsFold tfs v = .ok v') : jTruthy v' = jTruthy v := by
  induction tfs generalizing v with
  | nil =>
      unfold fixFieldsFold at h
      injection h with hv
      subst hv
      rfl
  | cons g rest ih =>
      unfold fixFieldsFold at h
      split at h
      · cases h
      · rename_i v1 h1
        rw [ih v1 h, fixFieldM_truthy g v v1 h1]

theorem getDF_objSet_self (fs : JObj) (k : String) (v d : JVal) :
    getDF (objSet fs k v) k d = v := by
  unfold getDF
  rw [lookupF_objSet_self]

theorem getDF_of_lookup (fs : JObj) (k : String) (v d : JVal)
    (h : lookupF fs k = some v) : getDF fs k d = v := by
  unfold getDF
  rw [h]

theorem lookup_of_getDF_truthy (fs : JObj) (k : String) (v d : JVal)
    (h : getDF fs k d = v) (ht : jTruthy v = true) (hd : jTruthy d = false) :
    lookupF fs k = some v := by
  unfold getDF at h
  cases hl : lookupF fs k with
  | none =>
      rw [hl] at h
      subst h
      rw [ht] at hd
      cases hd
  | some w =>
      rw [hl] at h
      subst h
      rfl

theorem temporalFieldAt_cleanAxis (enc : JObj) (k k' : String) :
    temporalFieldAt (.jobj (cleanAxis enc k')) k
      = temporalFieldAt (.jobj enc) k := by
  cases hl : lookupF enc k' with
  | none => simp only [cleanAxis, hl]
  | some av =>
      cases av with
      | jobj afs =>
          cases hs : lookupF afs "sort" with
          | none => simp only [cleanAxis, hl, hs]
          | some sv =>
              by_cases he : isEmptySortVal sv = true
              · simp only [cleanAxis, hl, hs, he, if_true]
                by_cases hk : k = k'
                · subst hk
                  simp only [temporalFieldAt, pyGetAttrD, getDF_objSet_self,
                    getDF_of_lookup enc k _ _ hl,
                    lookupF_objDel_ne afs "sort" "type" (by decide)]
                  have h2 : getDF (objDel afs "sort") "field" .jnull
                      = getDF afs "field" .jnull := by
                    unfold getDF
                    rw [lookupF_objDel_ne afs "sort" "field" (by decide)]
                  rw [h2]
                · simp only [temporalFieldAt, pyGetAttrD,
                    getDF_objSet_ne enc k' k _ _ hk]
              · simp [cleanAxis, hl, hs, he]
      | jstr s => simp only [cleanAxis, hl]
      | jnum q => simp only [cleanAxis, hl]
      | jbool b => simp only [cleanAxis, hl]
      | jnull => simp only [cleanAxis, hl]
      | jarr a => simp only [cleanAxis, hl]

theorem temporalFieldAt_cleanAxes (ks : List String) (enc : JObj)
    (k : String) :
    temporalFieldAt (.jobj (ks.foldl cleanAxis enc)) k
      = temporalFieldAt (.jobj enc) k := by
  induction ks generalizing enc with
  | nil => rfl
  | cons k' rest ih =>
      rw [List.foldl_cons, ih (cleanAxis enc k'), temporalFieldAt_cleanAxis]

theorem sortStep_tfs (s s' : JObj) (h : sortStep s = .ok s') :
    temporalFieldsM (getDF s' "encoding" (.jobj []))
      = temporalFieldsM (getDF s "encoding" (.jobj [])) := by
  unfold sortStep at h
  split at h
  · injection h with hv
    subst hv
    rfl
  · rename_i enc hl
    injection h with hv
    subst hv
    rw [getDF_objSet_self, getDF_of_lookup s "encoding" _ _ hl]
    unfold temporalFieldsM
    rw [temporalFieldAt_cleanAxes, temporalFieldAt_cleanAxes,
      temporalFieldAt_cleanAxes]
  · cases h

theorem dataValues_congr (a b : JObj) (h : lookupF a "data" = lookupF b "data") :
    dataValues a = dataValues b := by
  unfold dataValues getDF
  rw [h]

theorem fixTemporalData_inv (s s' : JObj) (h : fixTemporalData s = .ok s') :
    ∃ values,
      pyGetAttrD (getDF s "data" (.jobj [])) "values" (.jarr []) = .ok values ∧
      ((jTruthy values = false ∧ s' = s) ∨
       (jTruthy values = true ∧
        ∃ tfs, temporalFieldsM (getDF s "encoding" (.jobj [])) = .ok tfs ∧
          ((tfs.isEmpty = true ∧ s' = s) ∨
           (tfs.isEmpty = false ∧
            ∃ values', fixFieldsFold tfs values = .ok values' ∧
              s' = objSet s "data"
                (match getDF s "data" (.jobj []) with
                 | .jobj dfs => .jobj (objSet dfs "values" values')
                 | d => d))))) := by
  unfold fixTemporalData at h
  split at h
  · cases h
  · rename_i values hval
    refine ⟨values, hval, ?_⟩
    split at h
    · rename_i htr
      simp only [Bool.not_eq_true'] at htr
      injection h with hv
      subst hv
      exact Or.inl ⟨htr, rfl⟩
    · rename_i htr
      have htr2 : jTruthy values = true := by
        revert htr
        cases jTruthy values <;> simp
      refine Or.inr ⟨htr2, ?_⟩
      split at h
      · cases h
      · rename_i tfs htfs
        refine ⟨tfs, htfs, ?_⟩
        split at h
        · rename_i hemp
          injection h with hv
          subst hv
          exact Or.inl ⟨hemp, rfl⟩
        · rename_i hemp
          simp only [Bool.not_eq_true] at hemp
          split at h
          · cases h
          · rename_i values' hfold
            injection h with hv
            subst hv
            exact Or.inr ⟨by simpa using hemp, values', hfold, rfl⟩

theorem fixTemporalData_noop_falsy (s : JObj) (values : JVal)
    (hval : pyGetAttrD (getDF s "data" (.jobj [])) "values" (.jarr [])
      = .ok values)
    (htr : jTruthy values = false) : fixTemporalData s = .ok s := by
  unfold fixTemporalData
  rw [hval]
  simp [htr]

theorem fixTemporalData_noop_empty (s : JObj) (values : JVal)
    (hval : pyGetAttrD (getDF s "data" (.jobj [])) "values" (.jarr [])
      = .ok values)
    (htr : jTruthy values = true)
    (htfs : temporalFieldsM (getDF s "encoding" (.jobj [])) = .ok [])
    : fixTemporalData s = .ok s := by
  unfold fixTemporalData
  rw [hval]
  simp [htr, htfs]

theorem fixTemporalData_run (s : JObj) (dfs : JObj) (values : JVal)
    (tfs : List JVal) (values' : JVal)
    (hd : getDF s "data" (.jobj []) = .jobj dfs)
    (hv : getDF dfs "values" (.jarr []) = values)
    (htr : jTruthy values = true)
    (htfs : temporalFieldsM (getDF s "encoding" (.jobj [])) = .ok tfs)
    (hne : tfs.isEmpty = false)
    (hfold : fixFieldsFold tfs values = .ok values') :
    fixTemporalData s
      = .ok (objSet s "data" (.jobj (objSet dfs "values" values'))) := by
  unfold fixTemporalData
  rw [hd]
  simp only [pyGetAttrD, hv, htr, htfs, hne, hfold]
  simp

theorem pyGetAttrD_ok (v : JVal) (k : String) (d w : JVal)
    (h : pyGetAttrD v k d = .ok w) : ∃ fs, v = .jobj fs ∧ w = getDF fs k d := by
  cases v with
  | jobj fs =>
      injection h with hw
      exact ⟨fs, rfl, hw.symm⟩
  | jstr s => cases h
  | jnum q => cases h
  | jbool b => cases h
  | jnull => cases h
  | jarr a => cases h

theorem tfs_congr (a b : JObj) (h : lookupF a "encoding" = lookupF b "encoding") :
    temporalFieldsM (getDF a "encoding" (.jobj []))
      = temporalFieldsM (getDF b "encoding" (.jobj [])) := by
  unfold getDF
  rw [h]

/-- C5: the normalizer is idempotent with respect to the temporal unit
correction.  Normalizing the normalizer's own output a second time leaves
all data values unchanged: no value is multiplied by 1000 twice. -/
theorem clean_vega_spec_idempotent_data_values :
    ∀ spec t u, cleanVegaSpec spec = .ok t → cleanVegaSpec t = .ok u →
      dataValues u = dataValues t := by
  intro spec t u h1 h2
  obtain ⟨s1, s2, s3, ha1, ha2, ha3, ht⟩ := cleanVegaSpec_inv spec t h1
  obtain ⟨t1, t2, t3, hb1, hb2, hb3, hu⟩ := cleanVegaSpec_inv t u h2
  have hDt : lookupF t2 "data" = lookupF s3 "data" := by
    rw [sortStep_lookup_ne t1 t2 "data" (by decide) hb2,
      transformStep_lookup_ne t t1 "data" (by decide) hb1, ht,
      schemaStep_lookup_ne s3 "data" (by decide)]
  have hTf : temporalFieldsM (getDF t2 "encoding" (.jobj []))
      = temporalFieldsM (getDF s2 "encoding" (.jobj [])) := by
    rw [sortStep_tfs t1 t2 hb2]
    have he1 : lookupF t1 "encoding" = lookupF s2 "encoding" := by
      rw [transformStep_lookup_ne t t1 "encoding" (by decide) hb1, ht,
        schemaStep_lookup_ne s3 "encoding" (by decide),
        fixTemporalData_lookup_ne s2 s3 "encoding" (by decide) ha3]
    exact tfs_congr t1 s2 he1
  have hgoalU : dataValues u = dataValues t3 := by
    rw [hu]
    exact dataValues_congr _ _ (schemaStep_lookup_ne t3 "data" (by decide))
  have hgoalT : dataValues t = dataValues s3 := by
    rw [ht]
    exact dataValues_congr _ _ (schemaStep_lookup_ne s3 "data" (by decide))
  rw [hgoalU, hgoalT]
  obtain ⟨values, hval, hcase⟩ := fixTemporalData_inv s2 s3 ha3
  have hgd : getDF t2 "data" (.jobj []) = getDF s3 "data" (.jobj []) := by
    unfold getDF
    rw [hDt]
  cases hcase with
  | inl hfalsy =>
      obtain ⟨htrF, hs3⟩ := hfalsy
      subst hs3
      have hval2 : pyGetAttrD (getDF t2 "data" (.jobj [])) "values" (.jarr [])
          = .ok values := by
        rw [hgd]
        exact hval
      have hfix2 : fixTemporalData t2 = .ok t2 :=
        fixTemporalData_noop_falsy t2 values hval2 htrF
      rw [hfix2] at hb3
      injection hb3 with h3
      subst h3
      exact dataValues_congr t2 s3 hDt
  | inr hmain =>
      obtain ⟨htrT, tfs, htfs, hsub⟩ := hmain
      cases hsub with
      | inl hempty =>
          obtain ⟨hemp, hs3⟩ := hempty
          subst hs3
          have hval2 : pyGetAttrD (getDF t2 "data" (.jobj [])) "values"
              (.jarr []) = .ok values := by
            rw [hgd]
            exact hval
          have htfsnil : temporalFieldsM (getDF t2 "encoding" (.jobj []))
              = .ok [] := by
            rw [hTf, htfs]
            cases tfs with
            | nil => rfl
            | cons a l => simp at hemp
          have hfix2 : fixTemporalData t2 = .ok t2 :=
            fixTemporalData_noop_empty t2 values hval2 htrT htfsnil
          rw [hfix2] at hb3
          injection hb3 with h3
          subst h3
          exact dataValues_congr t2 s3 hDt
      | inr hrun =>
          obtain ⟨hemp, values', hfold, hs3⟩ := hrun
          obtain ⟨dfs, hdfs, hvals⟩ := pyGetAttrD_ok _ _ _ _ hval
          simp only [hdfs] at hs3
          have hdvS3 : dataValues s3 = some values' := by
            rw [hs3]
            simp only [dataValues, getDF_objSet_self, lookupF_objSet_self]
          have hd2 : getDF t2 "data" (.jobj [])
              = .jobj (objSet dfs "values" values') := by
            have hl2 : lookupF t2 "data"
                = some (.jobj (objSet dfs "values" values')) := by
              rw [hDt, hs3, lookupF_objSet_self]
            exact getDF_of_lookup _ _ _ _ hl2
          have hv2 : getDF (objSet dfs "values" values') "values" (.jarr [])
              = values' := getDF_objSet_self dfs "values" values' _
          have htr' : jTruthy values' = true := by
            rw [fixFieldsFold_truthy tfs values values' hfold]
            exact htrT
          have htfs2 : temporalFieldsM (getDF t2 "encoding" (.jobj []))
              = .ok tfs := by
            rw [hTf]
            exact htfs
          have hfold2 : fixFieldsFold tfs values' = .ok values' :=
            fixFieldsFold_idem tfs values values' hfold
          have hfix2 : fixTemporalData t2
              = .ok (objSet t2 "data" (.jobj (objSet
                  (objSet dfs "values" values') "values" values'))) :=
            fixTemporalData_run t2 (objSet dfs "values" values') values' tfs
              values' hd2 hv2 htr' htfs2 hemp hfold2
          rw [hfix2] at hb3
          injection hb3 with h3
          subst h3
          rw [hdvS3]
          simp only [dataValues, getDF_objSet_self, lookupF_objSet_self]

/-- Concrete instantiation of the idempotence theorem: both
normalization runs succeed on a temporal spec whose values are already
milliseconds, and the data values agree. -/
theorem clean_vega_spec_idempotent_data_values_witness :
    dataValues
        [("encoding", .jobj [("x", .jobj [("field", .jstr "d"),
            ("type", .jstr "temporal")])]),
         ("data", .jobj [("values", .jarr [.jobj [("d", .jnum 4000000000)]])])]
      = dataValues
        [("encoding", .jobj [("x", .jobj [("field", .jstr "d"),
            ("type", .jstr "temporal")])]),
         ("data", .jobj [("values", .jarr [.jobj [("d", .jnum 4000000000)]])])] :=
  clean_vega_spec_idempotent_data_values
    [("encoding", .jobj [("x", .jobj [("field", .jstr "d"),
        ("type", .jstr "temporal")])]),
     ("data", .jobj [("values", .jarr [.jobj [("d", .jnum 4000000000)]])])]
    [("encoding", .jobj [("x", .jobj [("field", .jstr "d"),
        ("type", .jstr "temporal")])]),
     ("data", .jobj [("values", .jarr [.jobj [("d", .jnum 4000000000)]])])]
    [("encoding", .jobj [("x", .jobj [("field", .jstr "d"),
        ("type", .jstr "temporal")])]),
     ("data", .jobj [("values", .jarr [.jobj [("d", .jnum 4000000000)]])])]
    (by rfl) (by rfl)

theorem rowCells_mult_ne (fs gs : String) (hne : fs ≠ gs) (xs : List JVal) :
    rowCells fs (xs.map (multRowP gs)) = rowCells fs xs := by
  induction xs with
  | nil => rfl
  | cons r rs ih =>
      simp only [rowCells, List.map_cons] at ih ⊢
      rw [cellQ_multRowP_ne fs gs r hne, ih]

theorem rowCells_mult_self (fs : String) (xs : List JVal) :
    rowCells fs (xs.map (multRowP fs))
      = (rowCells fs xs).map (Option.map (· * 1000)) := by
  induction xs with
  | nil => rfl
  | cons r rs ih =>
      simp only [rowCells, List.map_cons] at ih ⊢
      rw [cellQ_multRowP_self fs r, ih]

theorem decideP_congr (fs : String) (xs ys : List JVal)
    (h : rowCells fs xs = rowCells fs ys) : decideP fs xs = decideP fs ys := by
  unfold decideP pureSample
  have ht : (xs.take 5).map (cellQ fs) = (ys.take 5).map (cellQ fs) := by
    unfold rowCells at h
    rw [List.map_take, List.map_take, h]
  rw [filterMap_cellQ_congr fs _ _ ht]

theorem fixFieldM_cells_ne (g : JVal) (xs : List JVal) (v1 : JVal)
    (fs : String) (h : fixFieldM g (.jarr xs) = .ok v1) (hg : g ≠ .jstr fs) :
    ∃ xs1, v1 = .jarr xs1 ∧ rowCells fs xs1 = rowCells fs xs := by
  unfold fixFieldM at h
  split at h
  · cases h
  · injection h with hv
    exact ⟨xs, hv.symm, rfl⟩
  · rename_i hd
    obtain ⟨gs, xs0, hgs, hxs0⟩ := shouldFixD_true_shape g (.jarr xs) hd
    injection hxs0 with hxs0'
    subst hxs0'
    subst hgs
    simp only [multRows_str] at h
    injection h with hv
    have hgsfs : fs ≠ gs := by
      intro he
      subst he
      exact hg rfl
    exact ⟨xs.map (multRowP gs), hv.symm, rowCells_mult_ne fs gs hgsfs xs⟩

theorem fold_cells_stable (tfs : List JVal) (xs : List JVal) (v' : JVal)
    (fs : String) (h : fixFieldsFold tfs (.jarr xs) = .ok v')
    (hst : shouldFixD (.jstr fs) (.jarr xs) = .ok false) :
    ∃ xs', v' = .jarr xs' ∧ rowCells fs xs' = rowCells fs xs := by
  induction tfs generalizing xs with
  | nil =>
      unfold fixFieldsFold at h
      injection h with hv
      exact ⟨xs, hv.symm, rfl⟩
  | cons g rest ih =>
      unfold fixFieldsFold at h
      split at h
      · cases h
      · rename_i v1 h1
        have hst1 : shouldFixD (.jstr fs) v1 = .ok false :=
          fixFieldM_pres_stable g (.jarr xs) v1 (.jstr fs) h1 hst
        by_cases hg : g = .jstr fs
        · subst hg
          rw [fixFieldM_of_false _ _ hst] at h1
          injection h1 with hv1
          subst hv1
          exact ih xs h hst
        · obtain ⟨xs1, hv1, hcells1⟩ := fixFieldM_cells_ne g xs v1 fs h1 hg
          subst hv1
          obtain ⟨xs', hv', hcells⟩ := ih xs1 h hst1
          exact ⟨xs', hv', by rw [hcells, hcells1]⟩

theorem fold_cells_trigger (tfs : List JVal) (xs : List JVal) (v' : JVal)
    (fs : String) (h : fixFieldsFold tfs (.jarr xs) = .ok v')
    (hmem : (JVal.jstr fs) ∈ tfs) (hdp : decideP fs xs = true) :
    ∃ xs', v' = .jarr xs' ∧
      rowCells fs xs' = (rowCells fs xs).map (Option.map (· * 1000)) := by
  induction tfs generalizing xs with
  | nil => simp at hmem
  | cons g rest ih =>
      unfold fixFieldsFold at h
      split at h
      · cases h
      · rename_i v1 h1
        by_cases hg : g = .jstr fs
        · subst hg
          rw [fixFieldM_str_arr] at h1
          injection h1 with hv1
          subst hv1
          have hst1 : shouldFixD (.jstr fs) (.jarr (fixFieldP fs xs))
              = .ok false :=
            fixFieldM_stable (.jstr fs) (.jarr xs) _ (fixFieldM_str_arr fs xs)
          obtain ⟨xs', hv', hcells⟩ :=
            fold_cells_stable rest (fixFieldP fs xs) v' fs h hst1
          refine ⟨xs', hv', ?_⟩
          rw [hcells]
          unfold fixFieldP
          rw [if_pos hdp]
          exact rowCells_mult_self fs xs
        · obtain ⟨xs1, hv1, hcells1⟩ := fixFieldM_cells_ne g xs v1 fs h1 hg
          subst hv1
          have hdp1 : decideP fs xs1 = true := by
            rw [decideP_congr fs xs1 xs hcells1]
            exact hdp
          have hmem1 : (JVal.jstr fs) ∈ rest := by
            cases List.mem_cons.mp hmem with
            | inl he => exact absurd he.symm hg
            | inr hm => exact hm
          obtain ⟨xs', hv', hcells⟩ := ih xs1 h hmem1 hdp1
          exact ⟨xs', hv', by rw [hcells, hcells1]⟩

/-- C4 (amended): for every chart spec and every `x`/`y`/`color` channel
of declared type `temporal` bound to field `fs`: when the sampled values
of the first five rows are all numeric and lie strictly between 1e8 and
3e9 (the code uses strict bounds, not the closed range of the claim),
`_fix_temporal_data` multiplies every row's numeric value of that field by
exactly 1000; when the sampled values are all at least 3e9, every value of
that field is left unchanged. -/
theorem fix_temporal_field_repair :
    ∀ spec s' fs tfs xs,
      fixTemporalData spec = .ok s' →
      temporalFieldsM (getDF spec "encoding" (.jobj [])) = .ok tfs →
      JVal.jstr fs ∈ tfs →
      dataValues spec = some (.jarr xs) →
      (((∀ q ∈ pureSample fs xs, 100000000 < q ∧ q < 3000000000) →
        pureSample fs xs ≠ [] →
        ∃ xs', dataValues s' = some (.jarr xs') ∧
          rowCells fs xs' = (rowCells fs xs).map (Option.map (· * 1000)))
      ∧ ((∀ q ∈ pureSample fs xs, 3000000000 ≤ q) →
        ∃ xs', dataValues s' = some (.jarr xs') ∧
          rowCells fs xs' = rowCells fs xs)) := by
  intro spec s' fs tfs xs hfix htfs hmem hdv
  obtain ⟨values, hval, hcase⟩ := fixTemporalData_inv spec s' hfix
  have hdfs : ∃ dfs, getDF spec "data" (.jobj []) = .jobj dfs ∧
      lookupF dfs "values" = some (.jarr xs) := by
    unfold dataValues at hdv
    split at hdv
    · rename_i dfs hgd
      exact ⟨dfs, hgd, hdv⟩
    · cases hdv
  obtain ⟨dfs, hgd, hlv⟩ := hdfs
  have hvx : values = .jarr xs := by
    rw [hgd] at hval
    injection hval with hv
    rw [← hv]
    exact getDF_of_lookup dfs "values" _ _ hlv
  subst hvx
  constructor
  · intro hall hne
    have hdp : decideP fs xs = true := by
      unfold decideP
      have h1 : (pureSample fs xs).isEmpty = false := by
        cases hq : pureSample fs xs with
        | nil => exact absurd hq hne
        | cons q qs => rfl
      have h2 : (pureSample fs xs).all inSecRange = true := by
        rw [List.all_eq_true]
        intro q hq
        obtain ⟨hlt1, hlt2⟩ := hall q hq
        unfold inSecRange
        simp [hlt1, hlt2]
      rw [h1, h2]
      rfl
    have hxs : xs ≠ [] := by
      intro hx
      subst hx
      simp [pureSample] at hne
    cases hcase with
    | inl hp =>
        obtain ⟨htr, _⟩ := hp
        cases hx : xs with
        | nil => exact absurd hx hxs
        | cons a l =>
            rw [hx] at htr
            simp [jTruthy] at htr
    | inr hp =>
        obtain ⟨htr, tfs0, htfs0, hsub⟩ := hp
        rw [htfs] at htfs0
        injection htfs0 with he
        subst he
        cases hsub with
        | inl hq =>
            obtain ⟨hemp, _⟩ := hq
            cases tfs with
            | nil => simp at hmem
            | cons a l => simp at hemp
        | inr hq =>
            obtain ⟨hemp, values', hfold, hs'⟩ := hq
            obtain ⟨xs', hxv, hcells⟩ :=
              fold_cells_trigger tfs xs values' fs hfold hmem hdp
            subst hxv
            refine ⟨xs', ?_, hcells⟩
            rw [hs']
            simp only [hgd]
            simp only [dataValues, getDF_objSet_self, lookupF_objSet_self]
  · intro hall
    have hst : shouldFixD (.jstr fs) (.jarr xs) = .ok false := by
      rw [shouldFixD_str_arr]
      have hd0 : decideP fs xs = false := by
        unfold decideP
        cases hq : pureSample fs xs with
        | nil => rfl
        | cons q qs =>
            have hq3 : (3000000000 : ℚ) ≤ q := by
              refine hall q ?_
              rw [hq]
              exact List.mem_cons_self q qs
            have hr : inSecRange q = false := by
              unfold inSecRange
              simp only [Bool.and_eq_false_iff, decide_eq_false_iff_not,
                not_lt]
              right
              linarith
            simp [hr]
      rw [hd0]
    cases hcase with
    | inl hp =>
        obtain ⟨htr, hs'⟩ := hp
        subst hs'
        exact ⟨xs, hdv, rfl⟩
    | inr hp =>
        obtain ⟨htr, tfs0, htfs0, hsub⟩ := hp
        rw [htfs] at htfs0
        injection htfs0 with he
        subst he
        cases hsub with
        | inl hq =>
            obtain ⟨hemp, hs'⟩ := hq
            subst hs'
            exact ⟨xs, hdv, rfl⟩
        | inr hq =>
            obtain ⟨hemp, values', hfold, hs'⟩ := hq
            obtain ⟨xs', hxv, hcells⟩ :=
              fold_cells_stable tfs xs values' fs hfold hst
            subst hxv
            refine ⟨xs', ?_, hcells⟩
            rw [hs']
            simp only [hgd]
            simp only [dataValues, getDF_objSet_self, lookupF_objSet_self]

/-- C4 counterexample for the claim's closed range: a temporal field whose
sampled value is exactly 1e8 lies inside the claimed range `[1e8, 3e9]`,
yet the normalizer leaves the spec completely unchanged (the code's
trigger uses strict inequalities `1e8 < v < 3e9`). -/
theorem fix_temporal_field_repair_counterexample :
    fixTemporalData
        [("encoding", .jobj [("x", .jobj [("field", .jstr "d"),
            ("type", .jstr "temporal")])]),
         ("data", .jobj [("values", .jarr [.jobj [("d", .jnum 100000000)]])])]
      = .ok
        [("encoding", .jobj [("x", .jobj [("field", .jstr "d"),
            ("type", .jstr "temporal")])]),
         ("data", .jobj [("values", .jarr [.jobj [("d", .jnum 100000000)]])])]
    ∧ pureSample "d" [.jobj [("d", .jnum 100000000)]] = [100000000]
    ∧ (100000000 : ℚ) ≤ 100000000 ∧ (100000000 : ℚ) ≤ 3000000000 :=
  ⟨by rfl, by rfl, by norm_num, by norm_num⟩

/-- Concrete instantiation of the already-milliseconds direction: values
at 4e9 are at least 3e9 and are left unchanged. -/
theorem fix_temporal_field_repair_witness :
    ∃ xs', dataValues
        [("encoding", .jobj [("x", .jobj [("field", .jstr "d"),
            ("type", .jstr "temporal")])]),
         ("data", .jobj [("values", .jarr [.jobj [("d", .jnum 4000000000)]])])]
        = some (.jarr xs') ∧
      rowCells "d" xs' = rowCells "d" [.jobj [("d", .jnum 4000000000)]] :=
  (fix_temporal_field_repair
    [("encoding", .jobj [("x", .jobj [("field", .jstr "d"),
        ("type", .jstr "temporal")])]),
     ("data", .jobj [("values", .jarr [.jobj [("d", .jnum 4000000000)]])])]
    [("encoding", .jobj [("x", .jobj [("field", .jstr "d"),
        ("type", .jstr "temporal")])]),
     ("data", .jobj [("values", .jarr [.jobj [("d", .jnum 4000000000)]])])]
    "d" [.jstr "d"] [.jobj [("d", .jnum 4000000000)]]
    (by rfl) (by rfl) (List.mem_singleton.mpr rfl) (by rfl)).2
    (by
      intro q hq
      have : q = (4000000000 : ℚ) := by
        simpa [pureSample, cellQ, lookupF, numLike] using hq
      rw [this]
      norm_num)

/-- C8 counterexample: on input `" x {\"mark\" "` the extractor finds an
opening brace followed by the `"mark"` marker, the candidate is not valid
JSON and balanced-brace matching finds no closer, so no spec is returned —
but the cleaned text is NOT the original text unmodified: the final
cleanup strips the surrounding whitespace unconditionally. -/
theorem extract_chart_no_spec_counterexample :
    extractChartFromText " x \x7b\"mark\" " = ("x \x7b\"mark\"", none) ∧
    ("x \x7b\"mark\"" : String) ≠ " x \x7b\"mark\" " :=
  ⟨by rfl, by decide⟩

/-- C8 (amended): the extractor is a total function (it never raises), and
whenever it accepts no spec — in particular when an opening brace with
chart-marker tokens is not valid JSON or brace-matching finds no closer —
it returns no spec together with the original text subjected only to the
unconditional final cleanup (stripping a trailing orphaned chart lead-in
phrase and surrounding whitespace); the text is otherwise unmodified. -/
theorem extract_chart_no_spec_cleanup_only :
    ∀ text : String, (extractChartFromText text).2 = none →
      (extractChartFromText text).1
        = String.mk (finalCleanup text.toList) := by
  intro text h
  simp only [extractChartFromText] at h ⊢
  cases hf : tryFenced text.toList with
  | some r =>
      obtain ⟨fs, t'⟩ := r
      simp only [String.toList] at hf
      simp [hf] at h
  | none =>
      simp only [String.toList] at hf
      cases hs : strategy2go (bracePositions text.data 0) text.data with
      | some r =>
          obtain ⟨fs, t'⟩ := r
          simp [hf, hs] at h
      | none => simp [hf, hs]

/-- Concrete instantiation of the amended no-spec contract. -/
theorem extract_chart_no_spec_cleanup_only_witness :
    (extractChartFromText "plain text no json").1
      = String.mk (finalCleanup "plain text no json".toList) :=
  extract_chart_no_spec_cleanup_only "plain text no json" (by rfl)

theorem textBlock_eq (s : SystemMessage) :
    textBlock s = segChartFromText s ++ segCleanText s := by
  unfold textBlock segChartFromText segCleanText
  cases s.text with
  | none => rfl
  | some tm =>
      by_cases hp : tm.parts.isEmpty
      · simp [hp]
      · by_cases hs : stripL (joinParts tm.parts).data = []
        · simp [hp, hs]
        · simp [hp, hs]

theorem dataBlock_eq (s : SystemMessage) :
    dataBlock s = segSql s ++ segData s := by
  unfold dataBlock segSql segData
  cases s.data with
  | none => rfl
  | some dm => rfl

theorem chartBlock_eq (s : SystemMessage) :
    chartBlock s = segChartSpec s ++ segChartImage s := by
  obtain ⟨st, sd, sc, sa, se⟩ := s
  cases sc with
  | none => rfl
  | some cm =>
      obtain ⟨cres⟩ := cm
      cases cres with
      | none => rfl
      | some cr => rfl

theorem analysisBlock_eq (s : SystemMessage) :
    analysisBlock s = segReasoning s := rfl

theorem errorBlock_eq (s : SystemMessage) : errorBlock s = segError s := rfl

/-- C1: for every inbound system message, `_parse_message` emits display
messages in the order: chart extracted from the text part, cleaned text,
sql, data, vector chart spec from the chart part, rasterized chart image,
reasoning, error; each segment carries the claimed message type, and
within the data section the sql message precedes the data message by the
segment order. -/
theorem parse_message_order (s : SystemMessage) :
    parseSystem s
      = segChartFromText s ++ segCleanText s ++ segSql s ++ segData s ++
          segChartSpec s ++ segChartImage s ++ segReasoning s ++ segError s
    ∧ (segChartFromText s).all
        (fun c => c.message_type == "chart" && c.chart_spec.isSome) = true
    ∧ (segCleanText s).all (fun c => c.message_type == "text") = true
    ∧ (segSql s).all (fun c => c.message_type == "sql") = true
    ∧ (segData s).all (fun c => c.message_type == "data") = true
    ∧ (segChartSpec s).all
        (fun c => c.message_type == "chart" && c.chart_spec.isSome) = true
    ∧ (segChartImage s).all
        (fun c => c.message_type == "chart" && c.chart_image.isSome) = true
    ∧ (segReasoning s).all (fun c => c.message_type == "reasoning") = true
    ∧ (segError s).all (fun c => c.message_type == "error") = true := by
  refine ⟨?_, ?_, ?_, ?_, ?_, ?_, ?_, ?_, ?_⟩
  · rw [parseSystem, textBlock_eq, dataBlock_eq, chartBlock_eq,
      analysisBlock_eq, errorBlock_eq]
    simp [List.append_assoc]
  · unfold segChartFromText
    cases s.text with
    | none => rfl
    | some tm =>
        by_cases hp : tm.parts.isEmpty
        · simp [hp]
        · by_cases hs : stripL (joinParts tm.parts).data = []
          · simp [hp, hs]
          · cases hx : (extractChartFromText (joinParts tm.parts)).2 <;>
              simp [hp, hs, hx]
  · unfold segCleanText
    cases s.text with
    | none => rfl
    | some tm =>
        by_cases hp : tm.parts.isEmpty
        · simp [hp]
        · by_cases hs : stripL (joinParts tm.parts).data = []
          · simp [hp, hs]
          · by_cases ht :
                stripL (extractChartFromText
                  (joinParts tm.parts)).1.data = [] <;> simp [hp, hs, ht]
  · unfold segSql
    cases s.data with
    | none => rfl
    | some dm =>
        by_cases hq : dm.generated_sql ≠ "" <;> simp [hq]
  · unfold segData
    obtain ⟨st, sd, sc, sa, se⟩ := s
    cases sd with
    | none => rfl
    | some dm =>
        obtain ⟨gsql, dres⟩ := dm
        cases dres with
        | none => rfl
        | some dr => cases hpd : parseDataResult dr <;> simp [hpd]
  · unfold segChartSpec
    obtain ⟨st, sd, sc, sa, se⟩ := s
    cases sc with
    | none => rfl
    | some cm =>
        obtain ⟨cres⟩ := cm
        cases cres with
        | none => rfl
        | some cr =>
            by_cases hv : cr.vega_config.isEmpty <;> simp [hv]
  · unfold segChartImage
    obtain ⟨st, sd, sc, sa, se⟩ := s
    cases sc with
    | none => rfl
    | some cm =>
        obtain ⟨cres⟩ := cm
        cases cres with
        | none => rfl
        | some cr =>
            obtain ⟨vc, cimg⟩ := cr
            cases cimg with
            | none => rfl
            | some img => by_cases hi : img.data ≠ "" <;> simp [hi]
  · unfold segReasoning
    cases s.analysis with
    | none => rfl
    | some am => by_cases ha : am.progress_event ≠ "" <;> simp [ha]
  · unfold segError
    cases s.error with
    | none => rfl
    | some em => by_cases he : em.text ≠ "" <;> simp [he]

theorem processGo_split (pre : List Message) (acc : List ChatMessage)
    (e : String) (post : List StreamItem) :
    processGo acc (pre.map StreamItem.message ++ StreamItem.failure e :: post)
      = acc ++ (pre.map parseMessage).flatten ++ [errorChat e] := by
  induction pre generalizing acc with
  | nil => simp [processGo]
  | cons m rest ih =>
      simp only [List.map_cons, List.cons_append, processGo, List.append_eq,
        ih, List.flatten_cons, List.append_assoc]

theorem parseSystem_roles (s : SystemMessage) :
    (parseSystem s).all (fun c => c.role == "assistant") = true := by
  obtain ⟨st, sd, sc, sa, se⟩ := s
  simp only [parseSystem, List.all_append, Bool.and_eq_true]
  refine ⟨⟨⟨⟨?_, ?_⟩, ?_⟩, ?_⟩, ?_⟩
  · unfold textBlock
    cases st with
    | none => rfl
    | some tm =>
        by_cases hp : tm.parts.isEmpty
        · simp [hp]
        · by_cases hs : stripL (joinParts tm.parts).data = []
          · simp [hp, hs]
          · cases hx : (extractChartFromText (joinParts tm.parts)).2 <;>
              by_cases ht : stripL (extractChartFromText
                (joinParts tm.parts)).1.data = [] <;> simp [hp, hs, hx, ht]
  · unfold dataBlock
    cases sd with
    | none => rfl
    | some dm =>
        obtain ⟨gsql, dres⟩ := dm
        by_cases hq : gsql ≠ "" <;>
          cases dres with
          | none => simp [hq]
          | some dr => cases hpd : parseDataResult dr <;> simp [hq, hpd]
  · unfold chartBlock
    cases sc with
    | none => rfl
    | some cm =>
        obtain ⟨cres⟩ := cm
        cases cres with
        | none => rfl
        | some cr =>
            obtain ⟨vc, cimg⟩ := cr
            by_cases hv : vc.isEmpty <;>
              cases cimg with
              | none => simp [hv]
              | some img => by_cases hi : img.data ≠ "" <;> simp [hv, hi]
  · unfold analysisBlock
    cases sa with
    | none => rfl
    | some am => by_cases ha : am.progress_event ≠ "" <;> simp [ha]
  · unfold errorBlock
    cases se with
    | none => rfl
    | some em => by_cases he : em.text ≠ "" <;> simp [he]

theorem parseMessage_roles (m : Message) :
    (parseMessage m).all (fun c => c.role == "assistant") = true := by
  unfold parseMessage
  split
  · rfl
  · split
    · rfl
    · rename_i s _
      exact parseSystem_roles s

theorem processGo_roles (stream : List StreamItem) (acc : List ChatMessage)
    (hacc : acc.all (fun c => c.role == "assistant") = true) :
    (processGo acc stream).all (fun c => c.role == "assistant") = true := by
  induction stream generalizing acc with
  | nil => exact hacc
  | cons it rest ih =>
      cases it with
      | message m =>
          exact ih (acc ++ parseMessage m)
            (by simp [List.all_append, hacc, parseMessage_roles m])
      | failure e => simp [processGo, List.all_append, hacc, errorChat]

/-- C9: when the response stream itself fails after some well-formed
messages, the failure is caught exactly once at the top level: processing
stops, the messages parsed so far are kept, and exactly one error-kind
display message carrying the stringified failure is appended; the items
after the failure are never consumed. -/
theorem process_chat_response_stream_failure :
    ∀ (pre : List Message) (e : String) (post : List StreamItem),
      processChatResponse (pre.map StreamItem.message ++
          StreamItem.failure e :: post)
        = (pre.map parseMessage).flatten ++ [errorChat e]
      ∧ (errorChat e).message_type = "error"
      ∧ (errorChat e).content = "Error: " ++ e := by
  intro pre e post
  refine ⟨?_, rfl, rfl⟩
  unfold processChatResponse
  rw [processGo_split]
  simp

/-- C10: every display message produced by the core carries the assistant
role — both the per-message parser and the stream-failure handler — and on
a stream failure the display messages parsed before the failure are
retained, with the single error message appended after them. -/
theorem process_chat_response_assistant_role :
    (∀ stream, (processChatResponse stream).all
        (fun c => c.role == "assistant") = true)
    ∧ (∀ (pre : List Message) (e : String) (post : List StreamItem),
        processChatResponse (pre.map StreamItem.message ++
            StreamItem.failure e :: post)
          = (pre.map parseMessage).flatten ++ [errorChat e]
        ∧ (errorChat e).role = "assistant") := by
  constructor
  · intro stream
    exact processGo_roles stream [] rfl
  · intro pre e post
    refine ⟨?_, rfl⟩
    unfold processChatResponse
    rw [processGo_split]
    simp
